import Mathlib

/-!
Verification of the sprite-sheet cleanup-and-alignment engine of
`PrepSprites/sprite_pipeline.py` (and `spriteConverter/pixel_fixer.py`).

The code is shallowly embedded: a canvas is a width/height pair together
with a total pixel function; numpy arrays become pixel functions, loops
that write into arrays become folds over coordinate lists, Python dicts
become functions into `Option`.  All machine integers in the source are
small Python ints (arbitrary precision), so `Nat`/`Int` model them
exactly.
-/

/-- One RGBA pixel; each channel is 0–255 in the program. -/
structure Pixel where
  r : Nat
  g : Nat
  b : Nat
  a : Nat
deriving DecidableEq, Repr

/-- The fully transparent pixel `(0,0,0,0)` the code writes when clearing. -/
def clearPix : Pixel := ⟨0, 0, 0, 0⟩

/-- A pixel plane: row `y`, column `x` (numpy index order `data[y, x]`). -/
abbrev Pix := Nat → Nat → Pixel

/-- A canvas: an RGBA buffer of the given width and height. -/
structure Canvas where
  w : Nat
  h : Nat
  pix : Pix

/-- Grid parameters of a sprite sheet: the sheet size and `rows × cols`. -/
structure Grid where
  w : Nat
  h : Nat
  rows : Nat
  cols : Nat

/-- Cell width: `self.sprite_width = width // self.cols`. -/
def Grid.cw (g : Grid) : Nat := g.w / g.cols

/-- Cell height: `self.sprite_height = height // self.rows`. -/
def Grid.ch (g : Grid) : Nat := g.h / g.rows

/-- Pointwise update of a pixel plane at one coordinate `(y, x)`. -/
def updPix (g : Pix) (c : Nat × Nat) (v : Pixel) : Pix :=
  fun y x => if (y, x) = c then v else g y x

/-! ## Despeckler (`remove_orphan_pixels`) -/

/-- The 4-connected neighbours `[N, S, W, E]` read from the snapshot,
mirroring `[data[y-1, x], data[y+1, x], data[y, x-1], data[y, x+1]]`. -/
def neighborsOf (data : Pix) (y x : Nat) : List Pixel :=
  [data (y - 1) x, data (y + 1) x, data y (x - 1), data y (x + 1)]

/-- `Counter(valid_neighbors).most_common(1)[0][0]` on a possibly empty
list: the element with the largest multiplicity, ties broken in favour of
the element first inserted into the counter, i.e. first in list order. -/
def mostCommon (l : List Pixel) : Option Pixel :=
  l.foldl (fun acc p =>
    match acc with
    | none => some p
    | some q => if l.count p > l.count q then some p else some q) none

/-- Body of the despeckler loop for one interior coordinate `c`:
reads only from the snapshot `data`, writes (at most) `c` in `g`. -/
def despeckleStep (data : Pix) (g : Pix) (c : Nat × Nat) : Pix :=
  let cur := data c.1 c.2
  if cur.a = 0 then g
  else
    let neighbors := neighborsOf data c.1 c.2
    let matchCount := (neighbors.filter (fun n => n = cur)).length
    if matchCount = 0 then
      match mostCommon (neighbors.filter (fun n => n.a > 0)) with
      | some mc => updPix g c mc
      | none => updPix g c clearPix
    else g

/-- The interior coordinates `(y, x)` with `y ∈ range(1, h-1)` and
`x ∈ range(1, w-1)`, in the loop's row-major order. -/
def interiorCoords (h w : Nat) : List (Nat × Nat) :=
  (List.range' 1 (h - 2)) ×ˢ (List.range' 1 (w - 2))

/-- `remove_orphan_pixels`: fold the loop body over all interior
coordinates, starting from a copy of the snapshot. -/
def removeOrphanPixels (c : Canvas) : Canvas :=
  { c with pix := (interiorCoords c.h c.w).foldl (despeckleStep c.pix) c.pix }

/-! Spec-side rendering of §4.2, used by the refinement theorem for C5.
These definitions follow the specification's words, to be compared with
`removeOrphanPixels` above. -/

/-- Spec side: "the most frequent color among its opaque neighbors (ties
broken by N,S,W,E scan order)": the first list element whose
multiplicity is maximal. -/
def specMostFrequent (l : List Pixel) : Option Pixel :=
  (l.filter (fun p => l.all (fun q => decide (l.count q ≤ l.count p)))).head?

/-- Spec side, §4.2: border pixels and transparent pixels are unchanged;
an interior opaque pixel matching none of its 4 neighbours is an orphan
and is replaced by the most frequent opaque neighbour, or made fully
transparent when all four neighbours are transparent. -/
def despecklePixSpec (c : Canvas) (y x : Nat) : Pixel :=
  if 1 ≤ y ∧ y + 1 < c.h ∧ 1 ≤ x ∧ x + 1 < c.w then
    let p := c.pix y x
    if p.a = 0 then p
    else
      let ns := neighborsOf c.pix y x
      if ns.any (fun n => n = p) then p
      else
        match specMostFrequent (ns.filter (fun n => n.a > 0)) with
        | some q => q
        | none => clearPix
  else c.pix y x

/-! ## Lemmas about the despeckler -/

/-- Reference recursion: scan a list keeping the current best, replacing
it only on a strictly larger count. -/
def firstMaxFrom (cnt : Pixel → Nat) (m : Pixel) : List Pixel → Pixel
  | [] => m
  | p :: t => if cnt p > cnt m then firstMaxFrom cnt p t else firstMaxFrom cnt m t

/-- The value the despeckler leaves at an interior coordinate, read off
the snapshot only. -/
def despeckleVal (data : Pix) (y x : Nat) : Pixel :=
  let cur := data y x
  if cur.a = 0 then cur
  else
    let neighbors := neighborsOf data y x
    if (neighbors.filter (fun n => n = cur)).length = 0 then
      match mostCommon (neighbors.filter (fun n => n.a > 0)) with
      | some mc => mc
      | none => clearPix
    else cur

/-! ## Region writes: `array[y0:y0+h, x0:x0+w] = src` for in-range slices -/

/-- One in-bounds numpy slice assignment: destination origin, extent and
the source block (indexed locally from `(0,0)`). -/
structure RegionWrite where
  y0 : Nat
  x0 : Nat
  h : Nat
  w : Nat
  src : Pix

/-- Membership of `(y, x)` in the destination rectangle of a write. -/
def inWrite (wr : RegionWrite) (y x : Nat) : Prop :=
  wr.y0 ≤ y ∧ y < wr.y0 + wr.h ∧ wr.x0 ≤ x ∧ x < wr.x0 + wr.w

instance (wr : RegionWrite) (y x : Nat) : Decidable (inWrite wr y x) := by
  unfold inWrite; infer_instance

/-- `dst[y0:y0+h, x0:x0+w] = src` for a write whose rectangle lies inside
the array. -/
def writeRegion (dst : Pix) (wr : RegionWrite) : Pix :=
  fun y x => if inWrite wr y x then wr.src (y - wr.y0) (x - wr.x0) else dst y x

/-- A loop of slice assignments, in program order. -/
def applyWrites (base : Pix) (ws : List RegionWrite) : Pix :=
  ws.foldl writeRegion base

/-- Grid cells `(row, col)` in the row-major order of the nested loops. -/
def cellList (g : Grid) : List (Nat × Nat) :=
  (List.range g.rows) ×ˢ (List.range g.cols)

/-! ## Bounding boxes of opaque pixels -/

/-- A bounding box `(min_y, max_y, min_x, max_x)` in cell-local
coordinates. -/
structure BBox where
  minY : Nat
  maxY : Nat
  minX : Nat
  maxX : Nat
deriving DecidableEq, Repr

/-- `np.where(alpha > 0)` on the `ch × cw` cell slice at origin
`(y0, x0)`: the local coordinates of pixels with positive alpha, in
row-major scan order. -/
def opaqueCoords (p : Pix) (y0 x0 ch cw : Nat) : List (Nat × Nat) :=
  ((List.range ch) ×ˢ (List.range cw)).filter
    (fun ij => decide (0 < (p (y0 + ij.1) (x0 + ij.2)).a))

/-- `non_transparent[0].min()/.max(), non_transparent[1].min()/.max()`:
the per-cell bounding box of opaque pixels; `none` for an empty cell. -/
def bbox (p : Pix) (y0 x0 ch cw : Nat) : Option BBox :=
  match opaqueCoords p y0 x0 ch cw with
  | [] => none
  | c0 :: rest =>
      some { minY := rest.foldl (fun m ij => min m ij.1) c0.1,
             maxY := rest.foldl (fun m ij => max m ij.1) c0.1,
             minX := rest.foldl (fun m ij => min m ij.2) c0.2,
             maxX := rest.foldl (fun m ij => max m ij.2) c0.2 }

/-! ## CellArtifactCleaner (`_clean_cell_artifacts_silent`) -/

/-- The small margin (2 pixels) added "to avoid clipping". -/
def cleanMargin : Nat := 2

/-- `min_y = max(0, min_y - margin)`, `max_y = min(h-1, max_y + margin)`
and likewise for x, i.e. the margin-expanded box clamped to the cell. -/
def expandBox (ch cw : Nat) (bb : BBox) : BBox :=
  { minY := bb.minY - cleanMargin,
    maxY := min (ch - 1) (bb.maxY + cleanMargin),
    minX := bb.minX - cleanMargin,
    maxX := min (cw - 1) (bb.maxX + cleanMargin) }

/-- Membership in the inclusive box `[minY, maxY] × [minX, maxX]`
(the `mask` of the cleaner). -/
def inBox (bb : BBox) (i j : Nat) : Prop :=
  bb.minY ≤ i ∧ i ≤ bb.maxY ∧ bb.minX ≤ j ∧ j ≤ bb.maxX

instance (bb : BBox) (i j : Nat) : Decidable (inBox bb i j) := by
  unfold inBox; infer_instance

/-- The write-back of one cleaned cell: inside the expanded box the cell
keeps its pixels, outside they become `(0,0,0,0)`; `none` when the cell
has no opaque pixel (the loop `continue`s). -/
def cellCleanWrite (p : Pix) (g : Grid) (rc : Nat × Nat) : Option RegionWrite :=
  match bbox p (rc.1 * g.ch) (rc.2 * g.cw) g.ch g.cw with
  | none => none
  | some bb =>
      some { y0 := rc.1 * g.ch, x0 := rc.2 * g.cw, h := g.ch, w := g.cw,
             src := fun i j => if inBox (expandBox g.ch g.cw bb) i j
               then p (rc.1 * g.ch + i) (rc.2 * g.cw + j) else clearPix }

/-- `_clean_cell_artifacts_silent`'s canvas result: each cleaned cell is
written into a fresh fully-transparent buffer of the same size. -/
def cleanCanvas (c : Canvas) (g : Grid) : Canvas :=
  { c with pix := (applyWrites (fun _ _ => clearPix)
      ((cellList g).filterMap (cellCleanWrite c.pix g))) }

/-- One cell's contribution to `pixels_removed`:
`np.sum(alpha > 0) - np.sum((alpha > 0) & mask)`. -/
def cellRemoved (p : Pix) (g : Grid) (rc : Nat × Nat) : Nat :=
  match bbox p (rc.1 * g.ch) (rc.2 * g.cw) g.ch g.cw with
  | none => 0
  | some bb =>
      (opaqueCoords p (rc.1 * g.ch) (rc.2 * g.cw) g.ch g.cw).length
        - ((opaqueCoords p (rc.1 * g.ch) (rc.2 * g.cw) g.ch g.cw).filter
            (fun ij => decide (inBox (expandBox g.ch g.cw bb) ij.1 ij.2))).length

/-- The total `pixels_removed` returned by `_clean_cell_artifacts_silent`. -/
def cleanRemoved (c : Canvas) (g : Grid) : Nat :=
  ((cellList g).map (cellRemoved c.pix g)).sum

/-- A 4×4 single-cell sheet with one opaque pixel at (0,0) and one
transparent pixel carrying RGB junk at (3,3). -/
def cEx : Canvas :=
  { w := 4, h := 4,
    pix := fun y x =>
      if (y, x) = (0, 0) then ⟨5, 5, 5, 255⟩
      else if (y, x) = (3, 3) then ⟨9, 9, 9, 0⟩
      else ⟨0, 0, 0, 0⟩ }

/-- A 1×1 grid over the 4×4 sheet: one 4×4 cell. -/
def gEx : Grid := { w := 4, h := 4, rows := 1, cols := 1 }

/-! ## GridAligner (`auto_align_sprites`) -/

/-- An offset map `self.sprite_offsets`: `(row, col) ↦ (x_offset, y_offset)`,
absent key = no entry. -/
abbrev OffMap := (Nat × Nat) → Option (Int × Int)

/-- Dictionary update `self.sprite_offsets[(row, col)] = v`. -/
def updOff (m : OffMap) (k : Nat × Nat) (v : Int × Int) : OffMap :=
  fun j => if j = k then some v else m j

/-- `sprite_center_y = min_y + sprite_h / 2` and
`is_jumping = sprite_center_y < sprite_height / 3`, evaluated exactly
over ℚ (the Python float comparison is exact at these magnitudes: both
sides are ratios with denominators 2 and 3 of integers far below 2^50,
so the float comparison and the rational comparison agree). -/
def isJumping (minY sprH cellH : Nat) : Prop :=
  (minY : ℚ) + (sprH : ℚ) / 2 < (cellH : ℚ) / 3

instance (minY sprH cellH : Nat) : Decidable (isJumping minY sprH cellH) :=
  decidable_of_iff (6 * minY + 3 * sprH < 2 * cellH) (by
    unfold isJumping
    constructor
    · intro h
      have h6 : ((6 * minY + 3 * sprH : Nat) : ℚ) < ((2 * cellH : Nat) : ℚ) := by
        exact_mod_cast h
      push_cast at h6
      linarith
    · intro h
      have h6 : ((6 * minY + 3 * sprH : Nat) : ℚ) < ((2 * cellH : Nat) : ℚ) := by
        push_cast
        linarith
      exact_mod_cast h6)

/-- `y_offset`: centre vertically when jumping, else bottom-align.
`sprite_h ≤ cellH` always holds, so `Nat` subtraction is exact here. -/
def autoYOff (g : Grid) (bb : BBox) : Nat :=
  let sprH := bb.maxY - bb.minY + 1
  if isJumping bb.minY sprH g.ch then (g.ch - sprH) / 2 else g.ch - sprH

/-- `x_offset`: centre horizontally if the sprite fits, else left-align. -/
def autoXOff (g : Grid) (bb : BBox) : Nat :=
  let sprW := bb.maxX - bb.minX + 1
  if sprW ≤ g.cw then (g.cw - sprW) / 2 else 0

/-- `sprite = cell[min_y:max_y+1, min_x:max_x+1]`: the cropped
bounding-box block of a cell, indexed locally. -/
def spriteOf (img : Pix) (y0 x0 : Nat) (bb : BBox) : Pix :=
  fun i j => img (y0 + bb.minY + i) (x0 + bb.minX + j)

/-- The offset-dict entry `auto_align_sprites` stores for a cell:
`none` for an empty cell. -/
def alignOffAt (img : Pix) (g : Grid) (k : Nat × Nat) : Option (Int × Int) :=
  match bbox img (k.1 * g.ch) (k.2 * g.cw) g.ch g.cw with
  | none => none
  | some bb => some ((autoXOff g bb : Int), (autoYOff g bb : Int))

/-- The offset-dict step of the loop body. -/
def alignOffStep (img : Pix) (g : Grid) (m : OffMap) (rc : Nat × Nat) : OffMap :=
  match alignOffAt img g rc with
  | none => m
  | some v => updOff m rc v

/-- The slice assignment
`aligned_array[dest_y:dest_y+sprite_h, dest_x:dest_x+sprite_w] = sprite`
of one non-empty cell; `none` for an empty cell. -/
def cellAlignWrite (p : Pix) (g : Grid) (rc : Nat × Nat) : Option RegionWrite :=
  match bbox p (rc.1 * g.ch) (rc.2 * g.cw) g.ch g.cw with
  | none => none
  | some bb =>
      some { y0 := rc.1 * g.ch + autoYOff g bb, x0 := rc.2 * g.cw + autoXOff g bb,
             h := bb.maxY - bb.minY + 1, w := bb.maxX - bb.minX + 1,
             src := spriteOf p (rc.1 * g.ch) (rc.2 * g.cw) bb }

/-- The canvas step of the loop body. -/
def alignPixStep (img : Pix) (g : Grid) (p : Pix) (rc : Nat × Nat) : Pix :=
  match cellAlignWrite img g rc with
  | none => p
  | some wr => writeRegion p wr

/-- `auto_align_sprites`: one pass over the cells building the offset
dict and the fresh aligned canvas together. -/
def autoAlignStep (img : Pix) (g : Grid) (st : OffMap × Pix) (rc : Nat × Nat) :
    OffMap × Pix :=
  (alignOffStep img g st.1 rc, alignPixStep img g st.2 rc)

/-- `auto_align_sprites` applied to the cleaned image: the initial
OffsetMap and the aligned canvas. -/
def autoAlign (c : Canvas) (g : Grid) : OffMap × Canvas :=
  let st := (cellList g).foldl (autoAlignStep c.pix g)
    ((fun _ => none), (fun _ _ => clearPix))
  (st.1, { c with pix := st.2 })

/-! ## Rebuilder (`_rebuild_aligned_image`) -/

/-- numpy slice-index normalisation on an axis of length `n`: a negative
index counts from the end (clamped at 0), a non-negative one is clamped
at `n`. -/
def npIndex (i : Int) (n : Nat) : Nat :=
  if i < 0 then ((n : Int) + i).toNat else min i.toNat n

/-- `dst[i:j, k:l] = src` for a `h × w` source block, with numpy
broadcasting of size-1 axes; `none` models the `ValueError` raised on a
shape mismatch. -/
def npAssign (dst : Pix) (H W : Nat) (i j k l : Int) (src : Pix) (h w : Nat) :
    Option Pix :=
  let sy := npIndex i H
  let ey := npIndex j H
  let sx := npIndex k W
  let ex := npIndex l W
  if (ey - sy = h ∨ h = 1) ∧ (ex - sx = w ∨ w = 1) then
    some (fun y x => if sy ≤ y ∧ y < ey ∧ sx ≤ x ∧ x < ex
      then src (if h = 1 then 0 else y - sy) (if w = 1 then 0 else x - sx)
      else dst y x)
  else none

/-- The sprite cache `self.sprite_cache`: `(row, col) ↦` raw cell block. -/
abbrev Cache := (Nat × Nat) → Option Pix

/-- `_rebuild_aligned_image` body for one cell: skip cells without cache
entry or without opaque pixels; place the cropped bounding-box block at
`cell origin + offset` when `dest + size` fits below/right, else skip. -/
def rebuildStep (g : Grid) (cache : Cache) (offs : OffMap)
    (acc : Option Pix) (rc : Nat × Nat) : Option Pix :=
  match acc with
  | none => none
  | some p =>
      match cache rc with
      | none => some p
      | some cell =>
          match bbox cell 0 0 g.ch g.cw with
          | none => some p
          | some bb =>
              let sprH := bb.maxY - bb.minY + 1
              let sprW := bb.maxX - bb.minX + 1
              let destY : Int := (rc.1 * g.ch : Nat) + ((offs rc).getD (0, 0)).2
              let destX : Int := (rc.2 * g.cw : Nat) + ((offs rc).getD (0, 0)).1
              if destY + sprH ≤ (g.h : Int) ∧ destX + sprW ≤ (g.w : Int) then
                npAssign p g.h g.w destY (destY + sprH) destX (destX + sprW)
                  (fun i j => cell (bb.minY + i) (bb.minX + j)) sprH sprW
              else some p

/-- `_rebuild_aligned_image` (the placement pass, before the trailing
`_clean_cell_artifacts_silent` call): build into a fresh buffer;
`none` models a numpy error escaping the loop. -/
def rebuild (g : Grid) (cache : Cache) (offs : OffMap) : Option Pix :=
  (cellList g).foldl (rebuildStep g cache offs) (some (fun _ _ => clearPix))

/-- The placement `_rebuild_aligned_image` computes for a cached,
non-empty cell. -/
structure Placement where
  destY : Int
  destX : Int
  h : Nat
  w : Nat
  src : Pix

/-- The placement of one cell: `none` when the cell has no cache entry or
no opaque pixel. -/
def cellPlan (g : Grid) (cache : Cache) (offs : OffMap) (rc : Nat × Nat) :
    Option Placement :=
  match cache rc with
  | none => none
  | some cell =>
      match bbox cell 0 0 g.ch g.cw with
      | none => none
      | some bb =>
          some { destY := (rc.1 * g.ch : Nat) + ((offs rc).getD (0, 0)).2,
                 destX := (rc.2 * g.cw : Nat) + ((offs rc).getD (0, 0)).1,
                 h := bb.maxY - bb.minY + 1, w := bb.maxX - bb.minX + 1,
                 src := fun i j => cell (bb.minY + i) (bb.minX + j) }

/-- The bounds check of `_rebuild_aligned_image`: bottom and right edges
only. -/
def Placement.fits (g : Grid) (pl : Placement) : Prop :=
  pl.destY + pl.h ≤ (g.h : Int) ∧ pl.destX + pl.w ≤ (g.w : Int)

instance (g : Grid) (pl : Placement) : Decidable (pl.fits g) := by
  unfold Placement.fits; infer_instance

/-- The destination rectangle of a placement (for non-negative
destinations). -/
def inPlace (pl : Placement) (y x : Nat) : Prop :=
  pl.destY.toNat ≤ y ∧ y < pl.destY.toNat + pl.h ∧
  pl.destX.toNat ≤ x ∧ x < pl.destX.toNat + pl.w

instance (pl : Placement) (y x : Nat) : Decidable (inPlace pl y x) := by
  unfold inPlace; infer_instance

/-- The region write a kept (fitting) placement performs. -/
def keptWrite (g : Grid) (cache : Cache) (offs : OffMap) (rc : Nat × Nat) :
    Option RegionWrite :=
  match cellPlan g cache offs rc with
  | none => none
  | some pl =>
      if pl.fits g then
        some { y0 := pl.destY.toNat, x0 := pl.destX.toNat, h := pl.h, w := pl.w,
               src := pl.src }
      else none

/-- A 3×3 one-cell grid. -/
def gC1 : Grid := { w := 3, h := 3, rows := 1, cols := 1 }

/-- A cached cell block with a single opaque pixel at its corner. -/
def cellC1 : Pix := fun i j => if (i, j) = (0, 0) then ⟨1, 2, 3, 255⟩ else clearPix

/-- Cache holding only cell (0,0). -/
def cacheC1 : Cache := fun k => if k = (0, 0) then some cellC1 else none

/-- An offset map moving cell (0,0) two pixels to the left. -/
def offsC1 : OffMap := fun k => if k = (0, 0) then some (-2, 0) else none

/-- An offset map moving cell (0,0) one pixel right and down. -/
def offsW : OffMap := fun k => if k = (0, 0) then some (1, 1) else none

/-! ## AlignmentEditor (`interactive_alignment_tool`) -/

/-- The fixed display scale computed before the loop:
`scale = max(1, min(800 // width, 600 // height, 4))`. -/
def editorScale (g : Grid) : Nat := max 1 (min (800 / g.w) (min (600 / g.h) 4))

/-- The mutable state of the interactive loop (the session's canvas,
SpriteCache, OffsetMap, UndoStack and the loop-local variables). -/
structure EditorState where
  aligned : Canvas
  cache : Cache
  offsets : OffMap
  undoStack : List Canvas
  selectedCell : Option (Nat × Nat)
  eraserMode : Bool
  eraserSize : Nat
  mousePressed : Bool
  currentEraseCell : Option (Nat × Nat)

/-- `_cache_sprites`: re-capture every grid cell block from a canvas. -/
def captureCache (g : Grid) (c : Canvas) : Cache :=
  fun rc => if rc.1 < g.rows ∧ rc.2 < g.cols
    then some (fun i j => c.pix (rc.1 * g.ch + i) (rc.2 * g.cw + j))
    else none

/-- `undo_stack.append(...); if len(undo_stack) > 20: undo_stack.pop(0)`. -/
def pushSnap (l : List Canvas) (snap : Canvas) : List Canvas :=
  if (l ++ [snap]).length > 20 then (l ++ [snap]).tail else l ++ [snap]

/-- The double loop of `_erase_at_position`, pointwise: a pixel is
cleared iff it lies in the circle of the given radius around the image
position and inside both the image bounds and the given inclusive
bounds (every write stores the same constant, so the loop's result is
this pointwise function; `|dx| ≤ radius` follows from the circle test). -/
def erasePix (p : Pix) (H W : Nat) (imgY imgX : Int) (radius : Nat)
    (yMin yMax xMin xMax : Nat) : Pix :=
  fun y x =>
    if ((y : Int) - imgY) * ((y : Int) - imgY)
          + ((x : Int) - imgX) * ((x : Int) - imgX)
          ≤ (radius : Int) * (radius : Int) ∧
        y < H ∧ x < W ∧
        yMin ≤ y ∧ y ≤ yMax ∧ xMin ≤ x ∧ x ≤ xMax
    then clearPix else p y x

/-- `_erase_at_position`: convert to image coordinates, return unchanged
when the position is off-image, erase within the image and (when a cell
is locked) within that cell's bounds, and patch the sprite cache for the
affected cell. -/
def eraseAtPosition (g : Grid) (s : EditorState) (mx my : Int)
    (scale radius : Nat) (cell : Option (Nat × Nat)) : EditorState :=
  let imgX := mx.fdiv scale
  let imgY := my.fdiv scale
  if imgX < 0 ∨ imgY < 0 ∨ (s.aligned.w : Int) ≤ imgX ∨ (s.aligned.h : Int) ≤ imgY
  then s
  else
    match cell with
    | some rc =>
        let newPix := erasePix s.aligned.pix s.aligned.h s.aligned.w imgY imgX
          radius (rc.1 * g.ch) ((rc.1 + 1) * g.ch - 1)
          (rc.2 * g.cw) ((rc.2 + 1) * g.cw - 1)
        { s with aligned := { s.aligned with pix := newPix },
                 cache := fun k => if k = rc
                   then some (fun i j => newPix (rc.1 * g.ch + i) (rc.2 * g.cw + j))
                   else s.cache k }
    | none =>
        let newPix := erasePix s.aligned.pix s.aligned.h s.aligned.w imgY imgX
          radius 0 (s.aligned.h - 1) 0 (s.aligned.w - 1)
        { s with aligned := { s.aligned with pix := newPix } }

/-- The input events of the interactive loop that the verified claims
concern (nudge/alignment key handling is omitted: no claim depends on it). -/
inductive Event where
  | toggleEraser
  | undoKey
  | incSize
  | decSize
  | mouseDown (mx my : Int)
  | mouseUp
  | mouseMotion (mx my : Int)

/-- `grid_x = mx // (self.sprite_width * scale)` (after the border
adjustment `mx -= 20`). -/
def mdGx (g : Grid) (mx : Int) : Int := (mx - 20).fdiv (g.cw * editorScale g)

/-- `grid_y = my // (self.sprite_height * scale)` (after `my -= 50`). -/
def mdGy (g : Grid) (my : Int) : Int := (my - 50).fdiv (g.ch * editorScale g)

/-- `0 <= grid_x < self.cols and 0 <= grid_y < self.rows`. -/
def mdInGrid (g : Grid) (mx my : Int) : Prop :=
  0 ≤ mdGx g mx ∧ mdGx g mx < (g.cols : Int) ∧
  0 ≤ mdGy g my ∧ mdGy g my < (g.rows : Int)

instance (g : Grid) (mx my : Int) : Decidable (mdInGrid g mx my) := by
  unfold mdInGrid; infer_instance

/-- The cell locked at press time: `(grid_y, grid_x)` when the pointer is
over the grid, `None` otherwise. -/
def mdCell (g : Grid) (mx my : Int) : Option (Nat × Nat) :=
  if mdInGrid g mx my then some ((mdGy g my).toNat, (mdGx g mx).toNat) else none

/-- One iteration of the event dispatch of `interactive_alignment_tool`. -/
def step (g : Grid) (s : EditorState) (e : Event) : EditorState :=
  match e with
  | .toggleEraser =>
      if !s.eraserMode then { s with eraserMode := true, selectedCell := none }
      else { s with eraserMode := false }
  | .undoKey =>
      match s.undoStack.getLast? with
      | none => s
      | some snap =>
          { s with aligned := snap, undoStack := s.undoStack.dropLast,
                   cache := captureCache g snap }
  | .incSize => { s with eraserSize := min 20 (s.eraserSize + 1) }
  | .decSize => { s with eraserSize := max 1 (s.eraserSize - 1) }
  | .mouseDown mx my =>
      if s.eraserMode then
        eraseAtPosition g
          { s with mousePressed := true,
                   undoStack := pushSnap s.undoStack s.aligned,
                   currentEraseCell := mdCell g mx my }
          (mx - 20) (my - 50) (editorScale g) s.eraserSize (mdCell g mx my)
      else
        if mdInGrid g mx my
        then { s with mousePressed := true,
                      selectedCell := some ((mdGy g my).toNat, (mdGx g mx).toNat) }
        else { s with mousePressed := true }
  | .mouseUp => { s with mousePressed := false, currentEraseCell := none }
  | .mouseMotion mx my =>
      if s.mousePressed ∧ s.eraserMode then
        match s.currentEraseCell with
        | none => s
        | some rc =>
            eraseAtPosition g s (mx - 20) (my - 50) (editorScale g)
              s.eraserSize (some rc)
      else s

/-- A sequence of events folded through the dispatch. -/
def runEvents (g : Grid) (s : EditorState) (es : List Event) : EditorState :=
  es.foldl (step g) s

/-- One eraser stroke: press at a window position, then release. -/
def strokeE (g : Grid) (s : EditorState) (p : Int × Int) : EditorState :=
  step g (step g s (.mouseDown p.1 p.2)) .mouseUp

/-- A sequence of eraser strokes. -/
def strokeRun (g : Grid) (s : EditorState) (ps : List (Int × Int)) : EditorState :=
  ps.foldl (strokeE g) s

/-- The canvases as they are just before each stroke: exactly the
snapshots pushed by the strokes, oldest first. -/
def snapshots (g : Grid) : EditorState → List (Int × Int) → List Canvas
  | _, [] => []
  | s, p :: ps => s.aligned :: snapshots g (strokeE g s p) ps

/-- A concrete 4×4 all-opaque canvas for the editor examples. -/
def alignedE : Canvas := { w := 4, h := 4, pix := fun _ _ => ⟨5, 5, 5, 255⟩ }

/-- A 1×1 grid over the 4×4 canvas (cell size 4×4, display scale 4). -/
def gE : Grid := { w := 4, h := 4, rows := 1, cols := 1 }

/-- An editor state with cell (0,0) selected and the eraser off. -/
def s0E : EditorState :=
  { aligned := alignedE, cache := captureCache gE alignedE,
    offsets := fun _ => none, undoStack := [], selectedCell := some (0, 0),
    eraserMode := false, eraserSize := 3, mousePressed := false,
    currentEraseCell := none }

/-- An editor state like `s0E` but with one snapshot on the undo stack. -/
def s1E : EditorState := { s0E with undoStack := [alignedE] }

/-- An 8×4 all-opaque canvas for a two-cell grid. -/
def alignedE2 : Canvas := { w := 8, h := 4, pix := fun _ _ => ⟨5, 5, 5, 255⟩ }

/-- A 1×2 grid over the 8×4 canvas: two 4×4 cells, display scale 4. -/
def gE2 : Grid := { w := 8, h := 4, rows := 1, cols := 2 }

/-- An eraser-mode state with the maximal radius-20 brush. -/
def sE2 : EditorState :=
  { aligned := alignedE2, cache := captureCache gE2 alignedE2,
    offsets := fun _ => none, undoStack := [], selectedCell := none,
    eraserMode := true, eraserSize := 20, mousePressed := false,
    currentEraseCell := none }

/-- A 9×4 all-opaque canvas: with two columns of width 4 it has a
remainder strip at `x = 8` inside the image but outside the grid. -/
def alignedE3 : Canvas := { w := 9, h := 4, pix := fun _ _ => ⟨5, 5, 5, 255⟩ }

/-- A 1×2 grid over the 9×4 canvas (cell width 4, display scale 4). -/
def gE3 : Grid := { w := 9, h := 4, rows := 1, cols := 2 }

/-- An eraser-mode state over the 9×4 canvas with a radius-6 brush. -/
def sE3 : EditorState :=
  { aligned := alignedE3, cache := captureCache gE3 alignedE3,
    offsets := fun _ => none, undoStack := [], selectedCell := none,
    eraserMode := true, eraserSize := 6, mousePressed := false,
    currentEraseCell := none }

/-- A fresh eraser-mode editor state over the 4×4 single-cell grid with a
radius-1 brush and an empty undo stack. -/
def sErase : EditorState :=
  { aligned := alignedE, cache := captureCache gE alignedE,
    offsets := fun _ => none, undoStack := [], selectedCell := none,
    eraserMode := true, eraserSize := 1, mousePressed := false,
    currentEraseCell := none }

/-- 21 stroke positions: one press over image pixel (0,0), then twenty
presses over image pixel (0,3). -/
def ps21 : List (Int × Int) := (20, 50) :: List.replicate 20 (32, 50)

theorem foldl_mostCommonStep (cnt : Pixel → Nat) (t : List Pixel) (m : Pixel) :
    t.foldl (fun acc p => match acc with
      | none => some p
      | some q => if cnt p > cnt q then some p else some q) (some m)
      = some (firstMaxFrom cnt m t) := by
  induction t generalizing m with
  | nil => rfl
  | cons p t ih =>
      rw [List.foldl_cons]
      by_cases h : cnt p > cnt m
      · show t.foldl _ (if cnt p > cnt m then some p else some m) = _
        rw [if_pos h, ih, firstMaxFrom, if_pos h]
      · show t.foldl _ (if cnt p > cnt m then some p else some m) = _
        rw [if_neg h, ih, firstMaxFrom, if_neg h]

theorem bool_and_absorbL (a b c : Bool) (h : (b && c) = true → a = true) :
    (a && (b && c)) = (b && c) := by
  cases a <;> cases b <;> cases c <;> simp_all

theorem bool_and_mid (a b c : Bool) (h : a = true → b = true) :
    (a && (b && c)) = (a && c) := by
  cases a <;> cases b <;> cases c <;> simp_all

theorem firstMaxFrom_filter (cnt : Pixel → Nat) (t : List Pixel) (m : Pixel) :
    ((m :: t).filter (fun p => (m :: t).all (fun q => decide (cnt q ≤ cnt p)))).head?
      = some (firstMaxFrom cnt m t) := by
  induction t generalizing m with
  | nil => simp [firstMaxFrom]
  | cons p t ih =>
      by_cases h : cnt p > cnt m
      · have hpred : ∀ z ∈ m :: p :: t,
            ((fun z : Pixel => (m :: p :: t).all (fun q => decide (cnt q ≤ cnt z))) z)
              = ((fun z : Pixel => (p :: t).all (fun q => decide (cnt q ≤ cnt z))) z) := by
          intro z _
          simp only [List.all_cons]
          apply bool_and_absorbL
          intro hbc
          simp only [Bool.and_eq_true, decide_eq_true_eq] at hbc ⊢
          omega
        rw [List.filter_congr hpred]
        have hmfalse : ((p :: t).all (fun q => decide (cnt q ≤ cnt m))) = false := by
          simp only [List.all_cons, Bool.and_eq_false_iff, decide_eq_false_iff_not]
          left; omega
        rw [List.filter_cons_of_neg (by simp [hmfalse])]
        rw [firstMaxFrom, if_pos h]
        exact ih p
      · have hple : cnt p ≤ cnt m := by omega
        have hpred : ∀ z ∈ m :: p :: t,
            ((fun z : Pixel => (m :: p :: t).all (fun q => decide (cnt q ≤ cnt z))) z)
              = ((fun z : Pixel => (m :: t).all (fun q => decide (cnt q ≤ cnt z))) z) := by
          intro z _
          simp only [List.all_cons]
          apply bool_and_mid
          intro ha
          simp only [decide_eq_true_eq] at ha ⊢
          omega
        rw [List.filter_congr hpred]
        rw [firstMaxFrom, if_neg h, ← ih m]
        cases hQp : ((m :: t).all (fun q => decide (cnt q ≤ cnt p))) with
        | true =>
            have hQm : ((m :: t).all (fun q => decide (cnt q ≤ cnt m))) = true := by
              simp only [List.all_cons, Bool.and_eq_true, List.all_eq_true,
                decide_eq_true_eq] at hQp ⊢
              exact ⟨le_refl _, fun q hq => le_trans (hQp.2 q hq) hple⟩
            simp only [List.filter_cons, hQp, hQm, if_true, List.head?_cons]
        | false =>
            simp only [List.filter_cons, hQp, Bool.false_eq_true, if_false]

theorem mostCommon_eq_specMostFrequent (l : List Pixel) :
    mostCommon l = specMostFrequent l := by
  cases l with
  | nil => rfl
  | cons p t =>
      show (p :: t).foldl _ none = _
      rw [List.foldl_cons]
      exact (foldl_mostCommonStep (fun q => (p :: t).count q) t p).trans
        (firstMaxFrom_filter (fun q => (p :: t).count q) t p).symm

theorem despeckleStep_cases (data g : Pix) (c : Nat × Nat) :
    despeckleStep data g c = g ∨ ∃ v, despeckleStep data g c = updPix g c v := by
  unfold despeckleStep
  dsimp only
  split
  · exact Or.inl rfl
  · split
    · split
      · exact Or.inr ⟨_, rfl⟩
      · exact Or.inr ⟨_, rfl⟩
    · exact Or.inl rfl

theorem despeckleStep_ne (data g : Pix) (c : Nat × Nat) (y x : Nat)
    (h : (y, x) ≠ c) : despeckleStep data g c y x = g y x := by
  rcases despeckleStep_cases data g c with heq | ⟨v, heq⟩
  · rw [heq]
  · rw [heq]; simp [updPix, h]

theorem despeckleStep_self (data g : Pix) (c : Nat × Nat)
    (hg : g c.1 c.2 = data c.1 c.2) :
    despeckleStep data g c c.1 c.2 = despeckleVal data c.1 c.2 := by
  unfold despeckleStep despeckleVal
  dsimp only
  by_cases h1 : (data c.1 c.2).a = 0
  · rw [if_pos h1, if_pos h1]; exact hg
  · rw [if_neg h1, if_neg h1]
    by_cases h2 : (List.filter (fun n => decide (n = data c.1 c.2))
        (neighborsOf data c.1 c.2)).length = 0
    · rw [if_pos h2, if_pos h2]
      cases hm : mostCommon (List.filter (fun n => decide (n.a > 0))
          (neighborsOf data c.1 c.2)) with
      | none => simp [updPix]
      | some mc => simp [updPix]
    · rw [if_neg h2, if_neg h2]; exact hg

theorem foldl_despeckleStep (data : Pix) (l : List (Nat × Nat)) (hnd : l.Nodup) :
    ∀ g : Pix, (∀ c ∈ l, g c.1 c.2 = data c.1 c.2) →
    ∀ y x, (l.foldl (despeckleStep data) g) y x
      = if (y, x) ∈ l then despeckleVal data y x else g y x := by
  induction l with
  | nil => simp
  | cons c t ih =>
      intro g hg y x
      rw [List.foldl_cons]
      have hnd' : t.Nodup := hnd.of_cons
      have hcnot : c ∉ t := (List.nodup_cons.mp hnd).1
      have hg' : ∀ d ∈ t, despeckleStep data g c d.1 d.2 = data d.1 d.2 := by
        intro d hd
        have hdc : (d.1, d.2) ≠ c := by
          intro hcontra
          exact hcnot (by simpa [← hcontra] using hd)
        rw [despeckleStep_ne data g c d.1 d.2 hdc]
        exact hg d (List.mem_cons_of_mem c hd)
      rw [ih hnd' _ hg' y x]
      by_cases hmem : (y, x) ∈ t
      · rw [if_pos hmem, if_pos (List.mem_cons_of_mem c hmem)]
      · rw [if_neg hmem]
        by_cases hc : (y, x) = c
        · subst hc
          rw [if_pos (List.mem_cons_self _ _)]
          exact despeckleStep_self data g (y, x) (hg (y, x) (List.mem_cons_self _ _))
        · rw [if_neg (by simp [hc, hmem]), despeckleStep_ne data g c y x hc]

theorem mem_interiorCoords (h w y x : Nat) :
    (y, x) ∈ interiorCoords h w ↔ 1 ≤ y ∧ y + 1 < h ∧ 1 ≤ x ∧ x + 1 < w := by
  simp only [interiorCoords, List.mem_product, List.mem_range'_1]
  omega

theorem interiorCoords_nodup (h w : Nat) : (interiorCoords h w).Nodup :=
  List.Nodup.product (List.nodup_range' 1 (h - 2)) (List.nodup_range' 1 (w - 2))

theorem filter_length_zero_iff_any_false (l : List Pixel) (p : Pixel → Bool) :
    ((l.filter p).length = 0) ↔ (l.any p = false) := by
  rw [List.length_eq_zero, List.filter_eq_nil_iff, List.any_eq_false]

theorem despecklePixSpec_eq_val (c : Canvas) (y x : Nat)
    (hin : 1 ≤ y ∧ y + 1 < c.h ∧ 1 ≤ x ∧ x + 1 < c.w) :
    despecklePixSpec c y x = despeckleVal c.pix y x := by
  unfold despecklePixSpec despeckleVal
  rw [if_pos hin]
  dsimp only
  by_cases h1 : (c.pix y x).a = 0
  · rw [if_pos h1, if_pos h1]
  · rw [if_neg h1, if_neg h1]
    by_cases h2 : ((neighborsOf c.pix y x).filter
        (fun n => decide (n = c.pix y x))).length = 0
    · have hany := (filter_length_zero_iff_any_false
        (neighborsOf c.pix y x) (fun n => decide (n = c.pix y x))).mp h2
      rw [if_pos h2, if_neg (by simp [hany])]
      rw [mostCommon_eq_specMostFrequent]
    · have hany : ((neighborsOf c.pix y x).any
          (fun n => decide (n = c.pix y x))) = true := by
        rcases Bool.eq_false_or_eq_true ((neighborsOf c.pix y x).any
          (fun n => decide (n = c.pix y x))) with ht | hf
        · exact ht
        · exact absurd ((filter_length_zero_iff_any_false _ _).mpr hf) h2
      rw [if_neg h2, if_pos hany]

/-- C5: the despeckler's output is a pure, single-pass function of the
input snapshot: every pixel of `remove_orphan_pixels` equals the
spec-described per-pixel value computed from the unmodified input —
border, transparent and non-orphan pixels are unchanged, and an orphan is
replaced by the most frequent colour among its opaque input neighbours
(ties broken in N,S,W,E order), or made fully transparent when all four
input neighbours are transparent; replacements never feed back into the
classification of other pixels. -/
theorem despeckler_single_pass_spec (c : Canvas) :
    (removeOrphanPixels c).w = c.w ∧ (removeOrphanPixels c).h = c.h ∧
    ∀ y x, (removeOrphanPixels c).pix y x = despecklePixSpec c y x := by
  refine ⟨rfl, rfl, fun y x => ?_⟩
  show ((interiorCoords c.h c.w).foldl (despeckleStep c.pix) c.pix) y x = _
  rw [foldl_despeckleStep c.pix _ (interiorCoords_nodup c.h c.w) c.pix
    (fun _ _ => rfl) y x]
  by_cases hmem : (y, x) ∈ interiorCoords c.h c.w
  · rw [if_pos hmem]
    exact (despecklePixSpec_eq_val c y x ((mem_interiorCoords _ _ _ _).mp hmem)).symm
  · rw [if_neg hmem]
    unfold despecklePixSpec
    rw [if_neg (fun hcon => hmem ((mem_interiorCoords _ _ _ _).mpr hcon))]

theorem applyWrites_notin (base : Pix) (ws : List RegionWrite) (y x : Nat)
    (h : ∀ wr ∈ ws, ¬ inWrite wr y x) : applyWrites base ws y x = base y x := by
  induction ws generalizing base with
  | nil => rfl
  | cons wr t ih =>
      show applyWrites (writeRegion base wr) t y x = base y x
      rw [ih _ (fun w hw => h w (List.mem_cons_of_mem wr hw))]
      unfold writeRegion
      rw [if_neg (h wr (List.mem_cons_self _ _))]

theorem applyWrites_last_cover (base : Pix) (l1 l2 : List RegionWrite)
    (wr : RegionWrite) (y x : Nat) (hin : inWrite wr y x)
    (h2 : ∀ wr' ∈ l2, ¬ inWrite wr' y x) :
    applyWrites base (l1 ++ wr :: l2) y x = wr.src (y - wr.y0) (x - wr.x0) := by
  unfold applyWrites
  rw [List.foldl_append, List.foldl_cons]
  show applyWrites (writeRegion (applyWrites base l1) wr) l2 y x = _
  rw [applyWrites_notin _ _ _ _ h2]
  unfold writeRegion
  rw [if_pos hin]

theorem mem_cellList (g : Grid) (r c : Nat) :
    (r, c) ∈ cellList g ↔ r < g.rows ∧ c < g.cols := by
  simp [cellList, List.mem_product]

theorem cellList_nodup (g : Grid) : (cellList g).Nodup :=
  List.Nodup.product (List.nodup_range _) (List.nodup_range _)

theorem foldl_min_le_init {α : Type} (l : List α) (f : α → Nat) :
    ∀ init, l.foldl (fun m a => min m (f a)) init ≤ init := by
  induction l with
  | nil => intro init; exact le_refl _
  | cons a t ih =>
      intro init
      rw [List.foldl_cons]
      exact le_trans (ih _) (min_le_left _ _)

theorem foldl_min_le_mem {α : Type} (l : List α) (f : α → Nat) :
    ∀ init (a : α), a ∈ l → l.foldl (fun m b => min m (f b)) init ≤ f a := by
  induction l with
  | nil => intro _ a ha; cases ha
  | cons b t ih =>
      intro init a ha
      rw [List.foldl_cons]
      rcases List.mem_cons.mp ha with h | h
      · subst h
        exact le_trans (foldl_min_le_init t f _) (min_le_right _ _)
      · exact ih _ a h

theorem init_le_foldl_max {α : Type} (l : List α) (f : α → Nat) :
    ∀ init, init ≤ l.foldl (fun m a => max m (f a)) init := by
  induction l with
  | nil => intro init; exact le_refl _
  | cons a t ih =>
      intro init
      rw [List.foldl_cons]
      exact le_trans (le_max_left _ _) (ih _)

theorem mem_le_foldl_max {α : Type} (l : List α) (f : α → Nat) :
    ∀ init (a : α), a ∈ l → f a ≤ l.foldl (fun m b => max m (f b)) init := by
  induction l with
  | nil => intro _ a ha; cases ha
  | cons b t ih =>
      intro init a ha
      rw [List.foldl_cons]
      rcases List.mem_cons.mp ha with h | h
      · subst h
        exact le_trans (le_max_right _ _) (init_le_foldl_max t f _)
      · exact ih _ a h

theorem foldl_max_le {α : Type} (l : List α) (f : α → Nat) (K : Nat) :
    ∀ init, init ≤ K → (∀ a ∈ l, f a ≤ K) →
      l.foldl (fun m a => max m (f a)) init ≤ K := by
  induction l with
  | nil => intro init hi _; exact hi
  | cons a t ih =>
      intro init hi hl
      rw [List.foldl_cons]
      exact ih _ (max_le hi (hl a (List.mem_cons_self _ _)))
        (fun b hb => hl b (List.mem_cons_of_mem a hb))

theorem mem_opaqueCoords (p : Pix) (y0 x0 ch cw i j : Nat) :
    (i, j) ∈ opaqueCoords p y0 x0 ch cw ↔
      i < ch ∧ j < cw ∧ 0 < (p (y0 + i) (x0 + j)).a := by
  simp [opaqueCoords, List.mem_filter, List.mem_product, and_assoc]

theorem bbox_none_iff (p : Pix) (y0 x0 ch cw : Nat) :
    bbox p y0 x0 ch cw = none ↔ opaqueCoords p y0 x0 ch cw = [] := by
  unfold bbox
  cases opaqueCoords p y0 x0 ch cw with
  | nil => simp
  | cons c0 rest => simp

/-- Every opaque pixel of the cell lies inside the bounding box, and the
box lies inside the cell. -/
theorem bbox_bounds (p : Pix) (y0 x0 ch cw : Nat) (bb : BBox)
    (hbb : bbox p y0 x0 ch cw = some bb) :
    (∀ i j, (i, j) ∈ opaqueCoords p y0 x0 ch cw →
      bb.minY ≤ i ∧ i ≤ bb.maxY ∧ bb.minX ≤ j ∧ j ≤ bb.maxX) ∧
    bb.minY ≤ bb.maxY ∧ bb.minX ≤ bb.maxX ∧ bb.maxY < ch ∧ bb.maxX < cw := by
  unfold bbox at hbb
  rcases hco : opaqueCoords p y0 x0 ch cw with _ | ⟨c0, rest⟩ <;> rw [hco] at hbb
  · cases hbb
  · injection hbb with hbb
    subst hbb
    have hc0 : c0.1 < ch ∧ c0.2 < cw ∧ 0 < (p (y0 + c0.1) (x0 + c0.2)).a := by
      have hm : (c0.1, c0.2) ∈ opaqueCoords p y0 x0 ch cw := by
        rw [hco]; exact List.mem_cons_self _ _
      exact (mem_opaqueCoords p y0 x0 ch cw c0.1 c0.2).mp hm
    have hrest : ∀ a ∈ rest, a.1 < ch ∧ a.2 < cw := by
      intro a ha
      have hm : (a.1, a.2) ∈ opaqueCoords p y0 x0 ch cw := by
        rw [hco]; exact List.mem_cons_of_mem c0 (by simpa using ha)
      have := (mem_opaqueCoords p y0 x0 ch cw a.1 a.2).mp hm
      exact ⟨this.1, this.2.1⟩
    refine ⟨?_, ?_, ?_, ?_, ?_⟩
    · intro i j hij
      rcases List.mem_cons.mp hij with h | h
      · rw [← h]
        dsimp only
        exact ⟨foldl_min_le_init _ _ _, init_le_foldl_max _ _ _,
          foldl_min_le_init _ _ _, init_le_foldl_max _ _ _⟩
      · dsimp only
        refine ⟨?_, ?_, ?_, ?_⟩
        · simpa using foldl_min_le_mem rest (fun ij => ij.1) c0.1 (i, j) h
        · simpa using mem_le_foldl_max rest (fun ij => ij.1) c0.1 (i, j) h
        · simpa using foldl_min_le_mem rest (fun ij => ij.2) c0.2 (i, j) h
        · simpa using mem_le_foldl_max rest (fun ij => ij.2) c0.2 (i, j) h
    · exact le_trans (foldl_min_le_init _ _ _) (init_le_foldl_max _ _ _)
    · exact le_trans (foldl_min_le_init _ _ _) (init_le_foldl_max _ _ _)
    · have h1 : List.foldl (fun m ij => max m ij.1) c0.1 rest ≤ ch - 1 := by
        have hh := foldl_max_le rest (fun ij => ij.1) (ch - 1) c0.1
          (by omega) (fun a ha => by
            have h2 := (hrest a ha).1
            show a.1 ≤ ch - 1
            omega)
        simpa using hh
      have hch : 0 < ch := lt_of_le_of_lt (Nat.zero_le _) hc0.1
      dsimp only
      omega
    · have h1 : List.foldl (fun m ij => max m ij.2) c0.2 rest ≤ cw - 1 := by
        have hh := foldl_max_le rest (fun ij => ij.2) (cw - 1) c0.2
          (by omega) (fun a ha => by
            have h2 := (hrest a ha).2
            show a.2 ≤ cw - 1
            omega)
        simpa using hh
      have hcw : 0 < cw := lt_of_le_of_lt (Nat.zero_le _) hc0.2.1
      dsimp only
      omega

theorem sub_div_mul_eq_mod (y n : Nat) : y - y / n * n = y % n := by
  have h := Nat.mod_add_div y n
  rw [Nat.mul_comm] at h
  exact Nat.sub_eq_of_eq_add h.symm

/-- Every opaque pixel already lies inside the expanded box, so no cell
ever removes a pixel. -/
theorem cellRemoved_zero (p : Pix) (g : Grid) (rc : Nat × Nat) :
    cellRemoved p g rc = 0 := by
  unfold cellRemoved
  cases hbb : bbox p (rc.1 * g.ch) (rc.2 * g.cw) g.ch g.cw with
  | none => rfl
  | some bb =>
      dsimp only
      have hall := bbox_bounds p (rc.1 * g.ch) (rc.2 * g.cw) g.ch g.cw bb hbb
      have hfilter : (opaqueCoords p (rc.1 * g.ch) (rc.2 * g.cw) g.ch g.cw).filter
          (fun ij => decide (inBox (expandBox g.ch g.cw bb) ij.1 ij.2))
          = opaqueCoords p (rc.1 * g.ch) (rc.2 * g.cw) g.ch g.cw := by
        apply List.filter_eq_self.mpr
        intro a ha
        have hmem : (a.1, a.2) ∈ opaqueCoords p (rc.1 * g.ch) (rc.2 * g.cw) g.ch g.cw := by
          simpa using ha
        have hb := hall.1 a.1 a.2 hmem
        have hmaxY := hall.2.2.2.1
        have hmaxX := hall.2.2.2.2
        simp only [decide_eq_true_eq]
        unfold inBox expandBox cleanMargin
        dsimp only
        omega
      rw [hfilter, Nat.sub_self]

/-- C2 supporting fact: the cleaner's removed-pixel count is always 0. -/
theorem cleanRemoved_zero (c : Canvas) (g : Grid) : cleanRemoved c g = 0 := by
  unfold cleanRemoved
  apply List.sum_eq_zero
  intro x hx
  rcases List.mem_map.mp hx with ⟨rc, _, hrc⟩
  rw [← hrc, cellRemoved_zero]

theorem cellCleanWrite_fields (p : Pix) (g : Grid) (rc : Nat × Nat)
    (wr : RegionWrite) (hwr : cellCleanWrite p g rc = some wr) :
    wr.y0 = rc.1 * g.ch ∧ wr.x0 = rc.2 * g.cw ∧ wr.h = g.ch ∧ wr.w = g.cw := by
  unfold cellCleanWrite at hwr
  cases hbb : bbox p (rc.1 * g.ch) (rc.2 * g.cw) g.ch g.cw with
  | none => rw [hbb] at hwr; cases hwr
  | some bb =>
      rw [hbb] at hwr
      injection hwr with hwr
      rw [← hwr]
      exact ⟨rfl, rfl, rfl, rfl⟩

/-- A pixel covered by a cell's write identifies that cell. -/
theorem inWrite_cell_id (p : Pix) (g : Grid) (rc : Nat × Nat)
    (wr : RegionWrite) (hwr : cellCleanWrite p g rc = some wr) (y x : Nat)
    (hin : inWrite wr y x) : rc.1 = y / g.ch ∧ rc.2 = x / g.cw := by
  obtain ⟨h1, h2, h3, h4⟩ := cellCleanWrite_fields p g rc wr hwr
  obtain ⟨hy1, hy2, hx1, hx2⟩ := hin
  rw [h1] at hy1 hy2
  rw [h3] at hy2
  rw [h2] at hx1 hx2
  rw [h4] at hx2
  constructor
  · exact (Nat.div_eq_of_lt_le hy1 (by rw [Nat.succ_mul]; omega)).symm
  · exact (Nat.div_eq_of_lt_le hx1 (by rw [Nat.succ_mul]; omega)).symm

theorem div_lt_add_div_mul (y n : Nat) (hn : 0 < n) : y < y / n * n + n := by
  have hA := Nat.div_mul_le_self y n
  have hsub := sub_div_mul_eq_mod y n
  have hmod := Nat.mod_lt y hn
  have h1 : y - y / n * n < n := by rw [hsub]; exact hmod
  have h2 := (Nat.sub_lt_iff_lt_add hA).mp h1
  omega

/-- Pointwise characterisation of the cleaner: inside the grid-covered
region a pixel is governed by its own cell's cleaned block; outside it
the fresh buffer stays fully transparent. -/
theorem cleanCanvas_pix (c : Canvas) (g : Grid) (y x : Nat) :
    (cleanCanvas c g).pix y x =
      if y < g.rows * g.ch ∧ x < g.cols * g.cw then
        match cellCleanWrite c.pix g (y / g.ch, x / g.cw) with
        | none => clearPix
        | some wr => wr.src (y % g.ch) (x % g.cw)
      else clearPix := by
  show applyWrites (fun _ _ => clearPix)
    ((cellList g).filterMap (cellCleanWrite c.pix g)) y x = _
  by_cases hreg : y < g.rows * g.ch ∧ x < g.cols * g.cw
  case neg =>
    rw [if_neg hreg]
    apply applyWrites_notin
    intro wr hwr hin
    rcases List.mem_filterMap.mp hwr with ⟨rc, hrcmem, hrc⟩
    obtain ⟨f1, f2, f3, f4⟩ := cellCleanWrite_fields _ _ _ _ hrc
    obtain ⟨hr, hc⟩ := (mem_cellList g rc.1 rc.2).mp (by simpa using hrcmem)
    obtain ⟨hy1, hy2, hx1, hx2⟩ := hin
    rw [f1] at hy1
    rw [f1, f3] at hy2
    rw [f2] at hx1
    rw [f2, f4] at hx2
    apply hreg
    constructor
    · calc y < rc.1 * g.ch + g.ch := hy2
        _ = (rc.1 + 1) * g.ch := by ring
        _ ≤ g.rows * g.ch := Nat.mul_le_mul_right _ hr
    · calc x < rc.2 * g.cw + g.cw := hx2
        _ = (rc.2 + 1) * g.cw := by ring
        _ ≤ g.cols * g.cw := Nat.mul_le_mul_right _ hc
  case pos =>
    rw [if_pos hreg]
    obtain ⟨hy, hx⟩ := hreg
    have hch : 0 < g.ch := by
      rcases Nat.eq_zero_or_pos g.ch with h0 | h
      · rw [h0, Nat.mul_zero] at hy; omega
      · exact h
    have hcw : 0 < g.cw := by
      rcases Nat.eq_zero_or_pos g.cw with h0 | h
      · rw [h0, Nat.mul_zero] at hx; omega
      · exact h
    have hr : y / g.ch < g.rows := (Nat.div_lt_iff_lt_mul hch).mpr hy
    have hcx : x / g.cw < g.cols := (Nat.div_lt_iff_lt_mul hcw).mpr hx
    have hmem : (y / g.ch, x / g.cw) ∈ cellList g :=
      (mem_cellList _ _ _).mpr ⟨hr, hcx⟩
    rcases List.append_of_mem hmem with ⟨L1, L2, hsplit⟩
    have hnotin : (y / g.ch, x / g.cw) ∉ L2 := by
      have hnd := cellList_nodup g
      rw [hsplit] at hnd
      exact (List.nodup_cons.mp hnd.of_append_right).1
    rw [hsplit, List.filterMap_append, List.filterMap_cons]
    cases hW : cellCleanWrite c.pix g (y / g.ch, x / g.cw) with
    | none =>
        dsimp only
        rw [← List.filterMap_append]
        apply applyWrites_notin
        intro wr hwr hin
        rcases List.mem_filterMap.mp hwr with ⟨rc, hrcmem, hrc⟩
        obtain ⟨hid1, hid2⟩ := inWrite_cell_id _ _ _ _ hrc y x hin
        have hrceq : rc = (y / g.ch, x / g.cw) := by
          rw [← hid1, ← hid2]
        rw [hrceq] at hrc
        rw [hrc] at hW
        cases hW
    | some wr =>
        dsimp only
        obtain ⟨f1, f2, f3, f4⟩ := cellCleanWrite_fields _ _ _ _ hW
        have hin : inWrite wr y x := by
          refine ⟨?_, ?_, ?_, ?_⟩
          · rw [f1]; exact Nat.div_mul_le_self y g.ch
          · rw [f1, f3]; exact div_lt_add_div_mul y g.ch hch
          · rw [f2]; exact Nat.div_mul_le_self x g.cw
          · rw [f2, f4]; exact div_lt_add_div_mul x g.cw hcw
        have h2 : ∀ wr' ∈ L2.filterMap (cellCleanWrite c.pix g), ¬ inWrite wr' y x := by
          intro wr' hwr' hin'
          rcases List.mem_filterMap.mp hwr' with ⟨rc', hrcmem', hrc'⟩
          obtain ⟨hid1, hid2⟩ := inWrite_cell_id _ _ _ _ hrc' y x hin'
          have hrceq : rc' = (y / g.ch, x / g.cw) := by
            rw [← hid1, ← hid2]
          rw [hrceq] at hrcmem'
          exact hnotin hrcmem'
        rw [applyWrites_last_cover _ _ _ wr y x hin h2]
        rw [f1, f2, sub_div_mul_eq_mod, sub_div_mul_eq_mod]

theorem div_mul_add_mod (y n : Nat) : y / n * n + y % n = y := by
  have h := Nat.mod_add_div y n
  rw [Nat.mul_comm] at h
  omega

theorem cell_coord_div (r i ch : Nat) (hi : i < ch) : (r * ch + i) / ch = r :=
  Nat.div_eq_of_lt_le (Nat.le_add_right _ _) (by rw [Nat.succ_mul]; omega)

theorem cell_coord_mod (r i ch : Nat) (hi : i < ch) : (r * ch + i) % ch = i := by
  rw [Nat.add_comm, Nat.add_mul_mod_self_right]
  exact Nat.mod_eq_of_lt hi

theorem cellCleanWrite_of_bbox_none (p : Pix) (g : Grid) (rc : Nat × Nat)
    (hbb : bbox p (rc.1 * g.ch) (rc.2 * g.cw) g.ch g.cw = none) :
    cellCleanWrite p g rc = none := by
  unfold cellCleanWrite
  rw [hbb]

theorem cellCleanWrite_of_bbox_some (p : Pix) (g : Grid) (rc : Nat × Nat)
    (bb : BBox) (hbb : bbox p (rc.1 * g.ch) (rc.2 * g.cw) g.ch g.cw = some bb) :
    cellCleanWrite p g rc =
      some { y0 := rc.1 * g.ch, x0 := rc.2 * g.cw, h := g.ch, w := g.cw,
             src := fun i j => if inBox (expandBox g.ch g.cw bb) i j
               then p (rc.1 * g.ch + i) (rc.2 * g.cw + j) else clearPix } := by
  unfold cellCleanWrite
  rw [hbb]

/-- An opaque pixel of a cell lies in the margin-expanded bounding box. -/
theorem opaque_in_expandBox (p : Pix) (y0 x0 ch cw : Nat) (bb : BBox)
    (hbb : bbox p y0 x0 ch cw = some bb) (i j : Nat)
    (hmem : (i, j) ∈ opaqueCoords p y0 x0 ch cw) :
    inBox (expandBox ch cw bb) i j := by
  have hall := bbox_bounds p y0 x0 ch cw bb hbb
  have hb := hall.1 i j hmem
  have hmaxY := hall.2.2.2.1
  have hmaxX := hall.2.2.2.2
  unfold inBox expandBox cleanMargin
  dsimp only
  omega

/-- In-region value of the cleaner, expressed through the cell's
bounding box. -/
theorem cleanCanvas_pix_in (c : Canvas) (g : Grid) (y x : Nat)
    (hy : y < g.rows * g.ch) (hx : x < g.cols * g.cw) :
    (cleanCanvas c g).pix y x =
      match bbox c.pix (y / g.ch * g.ch) (x / g.cw * g.cw) g.ch g.cw with
      | none => clearPix
      | some bb => if inBox (expandBox g.ch g.cw bb) (y % g.ch) (x % g.cw)
          then c.pix y x else clearPix := by
  rw [cleanCanvas_pix, if_pos ⟨hy, hx⟩]
  cases hbb : bbox c.pix (y / g.ch * g.ch) (x / g.cw * g.cw) g.ch g.cw with
  | none => rw [cellCleanWrite_of_bbox_none c.pix g (y / g.ch, x / g.cw) hbb]
  | some bb =>
      rw [cellCleanWrite_of_bbox_some c.pix g (y / g.ch, x / g.cw) bb hbb]
      dsimp only
      rw [div_mul_add_mod, div_mul_add_mod]

/-- C2 (amended): the cleaner always reports 0 removed pixels and leaves
every opaque pixel of the grid-covered region unchanged; it clears the
remainder strips outside the grid-covered region, and any other pixel is
either left unchanged or set to `(0,0,0,0)` (transparent pixels carrying
non-zero RGB junk outside the expanded box are normalised). -/
theorem cleaner_count_zero_and_grid_region (c : Canvas) (g : Grid) :
    cleanRemoved c g = 0 ∧
    (∀ y x, y < g.rows * g.ch → x < g.cols * g.cw → 0 < (c.pix y x).a →
      (cleanCanvas c g).pix y x = c.pix y x) ∧
    (∀ y x, ¬ (y < g.rows * g.ch ∧ x < g.cols * g.cw) →
      (cleanCanvas c g).pix y x = clearPix) ∧
    (∀ y x, (cleanCanvas c g).pix y x = c.pix y x ∨
      (cleanCanvas c g).pix y x = clearPix) := by
  refine ⟨cleanRemoved_zero c g, ?_, ?_, ?_⟩
  · intro y x hy hx ha
    have hch : 0 < g.ch := by
      rcases Nat.eq_zero_or_pos g.ch with h0 | h
      · rw [h0, Nat.mul_zero] at hy; omega
      · exact h
    have hcw : 0 < g.cw := by
      rcases Nat.eq_zero_or_pos g.cw with h0 | h
      · rw [h0, Nat.mul_zero] at hx; omega
      · exact h
    have hm : (y % g.ch, x % g.cw) ∈ opaqueCoords c.pix
        (y / g.ch * g.ch) (x / g.cw * g.cw) g.ch g.cw := by
      rw [mem_opaqueCoords]
      refine ⟨Nat.mod_lt y hch, Nat.mod_lt x hcw, ?_⟩
      rw [div_mul_add_mod, div_mul_add_mod]
      exact ha
    rw [cleanCanvas_pix_in c g y x hy hx]
    cases hbb : bbox c.pix (y / g.ch * g.ch) (x / g.cw * g.cw) g.ch g.cw with
    | none =>
        rw [bbox_none_iff] at hbb
        rw [hbb] at hm
        cases hm
    | some bb =>
        dsimp only
        rw [if_pos (opaque_in_expandBox c.pix _ _ _ _ bb hbb _ _ hm)]
  · intro y x hreg
    rw [cleanCanvas_pix, if_neg hreg]
  · intro y x
    by_cases hreg : y < g.rows * g.ch ∧ x < g.cols * g.cw
    · rw [cleanCanvas_pix_in c g y x hreg.1 hreg.2]
      cases bbox c.pix (y / g.ch * g.ch) (x / g.cw * g.cw) g.ch g.cw with
      | none => exact Or.inr rfl
      | some bb =>
          dsimp only
          by_cases hib : inBox (expandBox g.ch g.cw bb) (y % g.ch) (x % g.cw)
          · rw [if_pos hib]; exact Or.inl rfl
          · rw [if_neg hib]; exact Or.inr rfl
    · rw [cleanCanvas_pix, if_neg hreg]
      exact Or.inr rfl

theorem region_facts (g : Grid) (y x : Nat) (hy : y < g.rows * g.ch)
    (hx : x < g.cols * g.cw) :
    0 < g.ch ∧ 0 < g.cw ∧ y / g.ch < g.rows ∧ x / g.cw < g.cols := by
  have hch : 0 < g.ch := by
    rcases Nat.eq_zero_or_pos g.ch with h0 | h
    · rw [h0, Nat.mul_zero] at hy; omega
    · exact h
  have hcw : 0 < g.cw := by
    rcases Nat.eq_zero_or_pos g.cw with h0 | h
    · rw [h0, Nat.mul_zero] at hx; omega
    · exact h
  exact ⟨hch, hcw, (Nat.div_lt_iff_lt_mul hch).mpr hy,
    (Nat.div_lt_iff_lt_mul hcw).mpr hx⟩

/-- Cleaning does not change which pixels of a cell are opaque. -/
theorem opaqueCoords_clean_cell (c : Canvas) (g : Grid) (r cc : Nat)
    (hr : r < g.rows) (hc : cc < g.cols) :
    opaqueCoords (cleanCanvas c g).pix (r * g.ch) (cc * g.cw) g.ch g.cw
      = opaqueCoords c.pix (r * g.ch) (cc * g.cw) g.ch g.cw := by
  unfold opaqueCoords
  apply List.filter_congr
  intro ij hij
  obtain ⟨hi, hj⟩ : ij.1 < g.ch ∧ ij.2 < g.cw := by
    have hp : (ij.1, ij.2) ∈ List.range g.ch ×ˢ List.range g.cw := by
      simpa using hij
    have h := List.mem_product.mp hp
    simpa [List.mem_range] using h
  have hy : r * g.ch + ij.1 < g.rows * g.ch := by
    calc r * g.ch + ij.1 < (r + 1) * g.ch := by rw [Nat.succ_mul]; omega
      _ ≤ g.rows * g.ch := Nat.mul_le_mul_right _ hr
  have hx : cc * g.cw + ij.2 < g.cols * g.cw := by
    calc cc * g.cw + ij.2 < (cc + 1) * g.cw := by rw [Nat.succ_mul]; omega
      _ ≤ g.cols * g.cw := Nat.mul_le_mul_right _ hc
  rw [cleanCanvas_pix_in c g _ _ hy hx]
  rw [cell_coord_div r ij.1 g.ch hi, cell_coord_div cc ij.2 g.cw hj,
    cell_coord_mod r ij.1 g.ch hi, cell_coord_mod cc ij.2 g.cw hj]
  cases hbb : bbox c.pix (r * g.ch) (cc * g.cw) g.ch g.cw with
  | none =>
      have hco := (bbox_none_iff _ _ _ _ _).mp hbb
      have hna : ¬ 0 < (c.pix (r * g.ch + ij.1) (cc * g.cw + ij.2)).a := by
        intro hpos
        have hmem : (ij.1, ij.2) ∈ opaqueCoords c.pix (r * g.ch) (cc * g.cw)
            g.ch g.cw := (mem_opaqueCoords _ _ _ _ _ _ _).mpr ⟨hi, hj, hpos⟩
        rw [hco] at hmem
        cases hmem
      simp [clearPix, hna]
  | some bb =>
      dsimp only
      by_cases hib : inBox (expandBox g.ch g.cw bb) ij.1 ij.2
      · rw [if_pos hib]
      · rw [if_neg hib]
        have hna : ¬ 0 < (c.pix (r * g.ch + ij.1) (cc * g.cw + ij.2)).a := by
          intro hpos
          exact hib (opaque_in_expandBox c.pix _ _ _ _ bb hbb ij.1 ij.2
            ((mem_opaqueCoords _ _ _ _ _ _ _).mpr ⟨hi, hj, hpos⟩))
        simp [clearPix, hna]

/-- Cleaning does not change any cell's bounding box. -/
theorem bbox_clean_cell (c : Canvas) (g : Grid) (r cc : Nat)
    (hr : r < g.rows) (hc : cc < g.cols) :
    bbox (cleanCanvas c g).pix (r * g.ch) (cc * g.cw) g.ch g.cw
      = bbox c.pix (r * g.ch) (cc * g.cw) g.ch g.cw := by
  unfold bbox
  rw [opaqueCoords_clean_cell c g r cc hr hc]

theorem canvas_ext (a b : Canvas) (hw : a.w = b.w) (hh : a.h = b.h)
    (hp : a.pix = b.pix) : a = b := by
  cases a
  cases b
  dsimp only at hw hh hp
  rw [hw, hh, hp]

/-- C9: CellArtifactCleaner is idempotent: running it a second time on
its own output returns that canvas unchanged, and (like every run) the
second run removes zero pixels. -/
theorem cleaner_idempotent (c : Canvas) (g : Grid) :
    cleanCanvas (cleanCanvas c g) g = cleanCanvas c g ∧
    cleanRemoved (cleanCanvas c g) g = 0 := by
  refine ⟨?_, cleanRemoved_zero _ _⟩
  refine canvas_ext _ _ rfl rfl ?_
  funext y x
  by_cases hreg : y < g.rows * g.ch ∧ x < g.cols * g.cw
  · obtain ⟨hch, hcw, hr, hcx⟩ := region_facts g y x hreg.1 hreg.2
    rw [cleanCanvas_pix_in (cleanCanvas c g) g y x hreg.1 hreg.2]
    rw [bbox_clean_cell c g (y / g.ch) (x / g.cw) hr hcx]
    cases hbb : bbox c.pix (y / g.ch * g.ch) (x / g.cw * g.cw) g.ch g.cw with
    | none =>
        rw [cleanCanvas_pix_in c g y x hreg.1 hreg.2, hbb]
    | some bb =>
        dsimp only
        by_cases hib : inBox (expandBox g.ch g.cw bb) (y % g.ch) (x % g.cw)
        · rw [if_pos hib]
        · rw [if_neg hib]
          rw [cleanCanvas_pix_in c g y x hreg.1 hreg.2, hbb]
          dsimp only
          rw [if_neg hib]
  · rw [cleanCanvas_pix (cleanCanvas c g) g, if_neg hreg,
      cleanCanvas_pix c g, if_neg hreg]

/-- C2 counterexample: pixel (3,3) lies inside the grid-covered region,
yet the cleaner changes it (its RGB junk is zeroed because it sits
outside the cell's margin-expanded bounding box), refuting "leaves every
pixel inside the grid-covered region unchanged" — while the removed-pixel
count is still 0. -/
theorem cleaner_changes_grid_pixel_cex :
    3 < gEx.rows * gEx.ch ∧ 3 < gEx.cols * gEx.cw ∧
    cleanRemoved cEx gEx = 0 ∧
    (cleanCanvas cEx gEx).pix 3 3 ≠ cEx.pix 3 3 := by decide

theorem cleaner_count_zero_and_grid_region_witness :
    cleanRemoved cEx gEx = 0 ∧ 0 < (cEx.pix 0 0).a ∧
    (cleanCanvas cEx gEx).pix 0 0 = cEx.pix 0 0 :=
  ⟨(cleaner_count_zero_and_grid_region cEx gEx).1, by decide,
   (cleaner_count_zero_and_grid_region cEx gEx).2.1 0 0 (by decide)
     (by decide) (by decide)⟩

theorem foldl_pair {α β γ : Type} (l : List γ) (f : α → γ → α) (h : β → γ → β)
    (a : α) (b : β) :
    l.foldl (fun st x => (f st.1 x, h st.2 x)) (a, b) = (l.foldl f a, l.foldl h b) := by
  induction l generalizing a b with
  | nil => rfl
  | cons x t ih => rw [List.foldl_cons, List.foldl_cons, List.foldl_cons]; exact ih _ _

theorem foldl_alignOffStep (img : Pix) (g : Grid) (l : List (Nat × Nat)) :
    ∀ (m : OffMap) (k : Nat × Nat),
      (l.foldl (alignOffStep img g) m) k =
        if k ∈ l ∧ (alignOffAt img g k).isSome then alignOffAt img g k else m k := by
  induction l with
  | nil => intro m k; simp
  | cons rc t ih =>
      intro m k
      rw [List.foldl_cons, ih]
      by_cases h1 : k ∈ t ∧ (alignOffAt img g k).isSome
      · rw [if_pos h1, if_pos ⟨List.mem_cons_of_mem rc h1.1, h1.2⟩]
      · rw [if_neg h1]
        by_cases hk : k = rc
        · subst hk
          unfold alignOffStep
          cases hoff : alignOffAt img g k with
          | none => rw [if_neg (by simp [hoff])]
          | some v =>
              rw [if_pos ⟨List.mem_cons_self _ _, by simp [hoff]⟩]
              simp [updOff]
        · have : alignOffStep img g m rc k = m k := by
            unfold alignOffStep
            cases alignOffAt img g rc with
            | none => rfl
            | some v => simp [updOff, hk]
          rw [this]
          rw [if_neg (by
            intro hcon
            exact h1 ⟨(List.mem_cons.mp hcon.1).resolve_left hk, hcon.2⟩)]

theorem alignPixStep_none (img : Pix) (g : Grid) (p : Pix) (rc : Nat × Nat)
    (hW : cellAlignWrite img g rc = none) : alignPixStep img g p rc = p := by
  unfold alignPixStep
  rw [hW]

theorem alignPixStep_some (img : Pix) (g : Grid) (p : Pix) (rc : Nat × Nat)
    (wr : RegionWrite) (hW : cellAlignWrite img g rc = some wr) :
    alignPixStep img g p rc = writeRegion p wr := by
  unfold alignPixStep
  rw [hW]

theorem foldl_alignPixStep (img : Pix) (g : Grid) (l : List (Nat × Nat)) :
    ∀ base : Pix, l.foldl (alignPixStep img g) base
      = applyWrites base (l.filterMap (cellAlignWrite img g)) := by
  induction l with
  | nil => intro base; rfl
  | cons rc t ih =>
      intro base
      rw [List.foldl_cons, List.filterMap_cons]
      cases hW : cellAlignWrite img g rc with
      | none => rw [alignPixStep_none img g base rc hW]; exact ih base
      | some wr =>
          rw [alignPixStep_some img g base rc wr hW]
          dsimp only
          rw [ih (writeRegion base wr)]
          rfl

theorem autoAlign_fst (c : Canvas) (g : Grid) (k : Nat × Nat) :
    (autoAlign c g).1 k =
      if k ∈ cellList g ∧ (alignOffAt c.pix g k).isSome
      then alignOffAt c.pix g k else none := by
  show ((cellList g).foldl (autoAlignStep c.pix g) _).1 k = _
  unfold autoAlignStep
  rw [foldl_pair]
  exact foldl_alignOffStep c.pix g (cellList g) _ k

theorem autoAlign_snd (c : Canvas) (g : Grid) :
    (autoAlign c g).2.pix
      = applyWrites (fun _ _ => clearPix) ((cellList g).filterMap (cellAlignWrite c.pix g)) := by
  show ((cellList g).foldl (autoAlignStep c.pix g) _).2 = _
  unfold autoAlignStep
  rw [foldl_pair]
  exact foldl_alignPixStep c.pix g (cellList g) _

theorem cellAlignWrite_of_bbox_none (p : Pix) (g : Grid) (rc : Nat × Nat)
    (hbb : bbox p (rc.1 * g.ch) (rc.2 * g.cw) g.ch g.cw = none) :
    cellAlignWrite p g rc = none := by
  unfold cellAlignWrite
  rw [hbb]

theorem cellAlignWrite_of_bbox_some (p : Pix) (g : Grid) (rc : Nat × Nat)
    (bb : BBox) (hbb : bbox p (rc.1 * g.ch) (rc.2 * g.cw) g.ch g.cw = some bb) :
    cellAlignWrite p g rc =
      some { y0 := rc.1 * g.ch + autoYOff g bb, x0 := rc.2 * g.cw + autoXOff g bb,
             h := bb.maxY - bb.minY + 1, w := bb.maxX - bb.minX + 1,
             src := spriteOf p (rc.1 * g.ch) (rc.2 * g.cw) bb } := by
  unfold cellAlignWrite
  rw [hbb]

/-- The auto-placed sprite never leaves its cell vertically. -/
theorem autoYOff_le (g : Grid) (bb : BBox) (hmax : bb.maxY < g.ch)
    (hmm : bb.minY ≤ bb.maxY) :
    autoYOff g bb + (bb.maxY - bb.minY + 1) ≤ g.ch := by
  unfold autoYOff
  dsimp only
  split
  · have := Nat.div_le_self (g.ch - (bb.maxY - bb.minY + 1)) 2
    omega
  · omega

/-- The auto-placed sprite never leaves its cell horizontally. -/
theorem autoXOff_le (g : Grid) (bb : BBox) (hmax : bb.maxX < g.cw)
    (hmm : bb.minX ≤ bb.maxX) :
    autoXOff g bb + (bb.maxX - bb.minX + 1) ≤ g.cw := by
  unfold autoXOff
  dsimp only
  split
  · have := Nat.div_le_self (g.cw - (bb.maxX - bb.minX + 1)) 2
    omega
  · omega

/-- A pixel covered by a cell's auto-align write identifies that cell. -/
theorem cellAlignWrite_inWrite_id (p : Pix) (g : Grid) (rc : Nat × Nat)
    (wr : RegionWrite) (hw : cellAlignWrite p g rc = some wr) (y x : Nat)
    (hin : inWrite wr y x) : rc.1 = y / g.ch ∧ rc.2 = x / g.cw := by
  unfold cellAlignWrite at hw
  cases hbb : bbox p (rc.1 * g.ch) (rc.2 * g.cw) g.ch g.cw with
  | none => rw [hbb] at hw; cases hw
  | some bb =>
      rw [hbb] at hw
      injection hw with hw
      obtain ⟨hall, hmy, hmx, hltY, hltX⟩ := bbox_bounds p _ _ _ _ bb hbb
      have hY := autoYOff_le g bb hltY hmy
      have hX := autoXOff_le g bb hltX hmx
      obtain ⟨hy1, hy2, hx1, hx2⟩ := hin
      rw [← hw] at hy1 hy2 hx1 hx2
      dsimp only at hy1 hy2 hx1 hx2
      constructor
      · refine (Nat.div_eq_of_lt_le ?_ ?_).symm
        · omega
        · rw [Nat.succ_mul]; omega
      · refine (Nat.div_eq_of_lt_le ?_ ?_).symm
        · omega
        · rw [Nat.succ_mul]; omega

/-- C4: for every non-empty grid cell, `auto_align_sprites` classifies the
cell aloft exactly when `minY + spriteH/2 < cellH/3`, storing
`offsetY = (cellH - spriteH) // 2` (aloft) or `cellH - spriteH`
(grounded), and `offsetX = (cellW - spriteW) // 2` when the sprite fits
horizontally, else `0`; the cropped bounding-box content is copied to the
cell origin plus that offset; an empty cell gets no offset entry and
nothing copied (its whole region stays transparent). -/
theorem autoalign_classify_and_offsets (c : Canvas) (g : Grid) (r cc : Nat)
    (hr : r < g.rows) (hc : cc < g.cols) :
    (∀ bb, bbox c.pix (r * g.ch) (cc * g.cw) g.ch g.cw = some bb →
      (autoAlign c g).1 (r, cc) = some
        (Int.ofNat (if bb.maxX - bb.minX + 1 ≤ g.cw
            then (g.cw - (bb.maxX - bb.minX + 1)) / 2 else 0),
         Int.ofNat (if isJumping bb.minY (bb.maxY - bb.minY + 1) g.ch
            then (g.ch - (bb.maxY - bb.minY + 1)) / 2
            else g.ch - (bb.maxY - bb.minY + 1))) ∧
      (∀ i j, i < bb.maxY - bb.minY + 1 → j < bb.maxX - bb.minX + 1 →
        (autoAlign c g).2.pix (r * g.ch + autoYOff g bb + i)
            (cc * g.cw + autoXOff g bb + j)
          = c.pix (r * g.ch + bb.minY + i) (cc * g.cw + bb.minX + j))) ∧
    (bbox c.pix (r * g.ch) (cc * g.cw) g.ch g.cw = none →
      (autoAlign c g).1 (r, cc) = none ∧
      ∀ i j, i < g.ch → j < g.cw →
        (autoAlign c g).2.pix (r * g.ch + i) (cc * g.cw + j) = clearPix) := by
  constructor
  · intro bb hbb
    constructor
    · rw [autoAlign_fst, if_pos ⟨(mem_cellList g r cc).mpr ⟨hr, hc⟩,
        by simp [alignOffAt, hbb]⟩]
      simp only [alignOffAt, hbb]
      unfold autoXOff autoYOff
      dsimp only
      rfl
    · intro i j hij hjj
      obtain ⟨hall, hmy, hmx, hltY, hltX⟩ := bbox_bounds c.pix _ _ _ _ bb hbb
      have hY := autoYOff_le g bb hltY hmy
      have hX := autoXOff_le g bb hltX hmx
      rw [autoAlign_snd]
      have hmem : (r, cc) ∈ cellList g := (mem_cellList g r cc).mpr ⟨hr, hc⟩
      rcases List.append_of_mem hmem with ⟨L1, L2, hsplit⟩
      have hnotin : (r, cc) ∉ L2 := by
        have hnd := cellList_nodup g
        rw [hsplit] at hnd
        exact (List.nodup_cons.mp hnd.of_append_right).1
      rw [hsplit, List.filterMap_append, List.filterMap_cons,
        cellAlignWrite_of_bbox_some c.pix g (r, cc) bb hbb]
      dsimp only
      have hdivy : (r * g.ch + autoYOff g bb + i) / g.ch = r := by
        rw [Nat.add_assoc]
        exact cell_coord_div r _ g.ch (by omega)
      have hdivx : (cc * g.cw + autoXOff g bb + j) / g.cw = cc := by
        rw [Nat.add_assoc]
        exact cell_coord_div cc _ g.cw (by omega)
      have hinp : inWrite
          { y0 := r * g.ch + autoYOff g bb, x0 := cc * g.cw + autoXOff g bb,
            h := bb.maxY - bb.minY + 1, w := bb.maxX - bb.minX + 1,
            src := spriteOf c.pix (r * g.ch) (cc * g.cw) bb }
          (r * g.ch + autoYOff g bb + i) (cc * g.cw + autoXOff g bb + j) :=
        ⟨Nat.le_add_right _ _, by dsimp only; omega,
          Nat.le_add_right _ _, by dsimp only; omega⟩
      have h2p : ∀ wr' ∈ List.filterMap (cellAlignWrite c.pix g) L2,
          ¬ inWrite wr' (r * g.ch + autoYOff g bb + i)
            (cc * g.cw + autoXOff g bb + j) := by
        intro wr' hwr' hin'
        rcases List.mem_filterMap.mp hwr' with ⟨rc', hrcmem', hrc'⟩
        obtain ⟨hid1, hid2⟩ := cellAlignWrite_inWrite_id c.pix g rc' wr' hrc' _ _ hin'
        rw [hdivy] at hid1
        rw [hdivx] at hid2
        have heq2 : rc' = (r, cc) := by rw [← hid1, ← hid2]
        rw [heq2] at hrcmem'
        exact hnotin hrcmem'
      refine Eq.trans (applyWrites_last_cover _ _ _ _ _ _ hinp h2p) ?_
      dsimp only
      unfold spriteOf
      congr 1
      · omega
      · omega
  · intro hbb
    constructor
    · rw [autoAlign_fst]
      rw [if_neg (by simp [alignOffAt, hbb])]
    · intro i j hi hj
      rw [autoAlign_snd]
      apply applyWrites_notin
      intro wr' hwr' hin'
      rcases List.mem_filterMap.mp hwr' with ⟨rc', hrcmem', hrc'⟩
      obtain ⟨hid1, hid2⟩ := cellAlignWrite_inWrite_id c.pix g rc' wr' hrc' _ _ hin'
      rw [cell_coord_div r i g.ch hi] at hid1
      rw [cell_coord_div cc j g.cw hj] at hid2
      have heq : rc' = (r, cc) := by rw [← hid1, ← hid2]
      rw [heq, cellAlignWrite_of_bbox_none c.pix g (r, cc) hbb] at hrc'
      cases hrc'

theorem autoalign_classify_and_offsets_witness :
    0 < gEx.rows ∧ 0 < gEx.cols ∧ (autoAlign cEx gEx).1 (0, 0) = some (1, 1) :=
  ⟨by decide, by decide, by
    have h := ((autoalign_classify_and_offsets cEx gEx 0 0 (by decide)
      (by decide)).1 ⟨0, 0, 0, 0⟩ (by decide)).1
    rw [h]
    decide⟩

theorem rebuildStep_plan (g : Grid) (cache : Cache) (offs : OffMap) (p : Pix)
    (rc : Nat × Nat) :
    rebuildStep g cache offs (some p) rc =
      match cellPlan g cache offs rc with
      | none => some p
      | some pl =>
          if pl.destY + pl.h ≤ (g.h : Int) ∧ pl.destX + pl.w ≤ (g.w : Int)
          then npAssign p g.h g.w pl.destY (pl.destY + pl.h) pl.destX
            (pl.destX + pl.w) pl.src pl.h pl.w
          else some p := by
  unfold rebuildStep cellPlan
  cases cache rc with
  | none => rfl
  | some cell =>
      dsimp only
      cases bbox cell 0 0 g.ch g.cw with
      | none => rfl
      | some bb => rfl

theorem npAssign_of_fits (p : Pix) (H W : Nat) (dy dx : Int) (h w : Nat)
    (src : Pix) (hy0 : 0 ≤ dy) (hx0 : 0 ≤ dx) (hyb : dy + h ≤ (H : Int))
    (hxb : dx + w ≤ (W : Int)) :
    npAssign p H W dy (dy + h) dx (dx + w) src h w
      = some (writeRegion p
          { y0 := dy.toNat, x0 := dx.toNat, h := h, w := w, src := src }) := by
  have hsy : npIndex dy H = dy.toNat := by
    unfold npIndex
    rw [if_neg (by omega)]
    omega
  have hey : npIndex (dy + h) H = dy.toNat + h := by
    unfold npIndex
    rw [if_neg (by omega)]
    omega
  have hsx : npIndex dx W = dx.toNat := by
    unfold npIndex
    rw [if_neg (by omega)]
    omega
  have hex : npIndex (dx + w) W = dx.toNat + w := by
    unfold npIndex
    rw [if_neg (by omega)]
    omega
  unfold npAssign
  dsimp only
  rw [hsy, hey, hsx, hex]
  rw [if_pos ⟨Or.inl (by omega), Or.inl (by omega)⟩]
  congr 1
  funext y x
  unfold writeRegion inWrite
  dsimp only
  by_cases hcov : dy.toNat ≤ y ∧ y < dy.toNat + h ∧ dx.toNat ≤ x ∧ x < dx.toNat + w
  · rw [if_pos hcov, if_pos hcov]
    congr 1
    · by_cases h1 : h = 1
      · rw [if_pos h1]; omega
      · rw [if_neg h1]
    · by_cases h1 : w = 1
      · rw [if_pos h1]; omega
      · rw [if_neg h1]
  · rw [if_neg hcov, if_neg hcov]

theorem foldl_ext {α β : Type} (f f' : α → β → α) (l : List β)
    (h : ∀ a, ∀ x ∈ l, f a x = f' a x) : ∀ a, l.foldl f a = l.foldl f' a := by
  induction l with
  | nil => intro a; rfl
  | cons x t ih =>
      intro a
      rw [List.foldl_cons, List.foldl_cons, h a x (List.mem_cons_self _ _)]
      exact ih (fun a y hy => h a y (List.mem_cons_of_mem x hy)) _

theorem rebuild_foldl_eq (g : Grid) (cache : Cache) (offs : OffMap)
    (l : List (Nat × Nat))
    (hnn : ∀ rc ∈ l, ∀ pl, cellPlan g cache offs rc = some pl →
      0 ≤ pl.destY ∧ 0 ≤ pl.destX) :
    ∀ base : Pix, l.foldl (rebuildStep g cache offs) (some base)
      = some (applyWrites base (l.filterMap (keptWrite g cache offs))) := by
  induction l with
  | nil => intro base; rfl
  | cons rc t ih =>
      intro base
      have hnn' : ∀ rc' ∈ t, ∀ pl, cellPlan g cache offs rc' = some pl →
          0 ≤ pl.destY ∧ 0 ≤ pl.destX :=
        fun rc' h' => hnn rc' (List.mem_cons_of_mem rc h')
      rw [List.foldl_cons, List.filterMap_cons, rebuildStep_plan]
      cases hpl : cellPlan g cache offs rc with
      | none =>
          have hk : keptWrite g cache offs rc = none := by
            unfold keptWrite
            rw [hpl]
          rw [hk]
          exact ih hnn' base
      | some pl =>
          obtain ⟨hny, hnx⟩ := hnn rc (List.mem_cons_self _ _) pl hpl
          by_cases hf : pl.destY + pl.h ≤ (g.h : Int) ∧ pl.destX + pl.w ≤ (g.w : Int)
          · have hk : keptWrite g cache offs rc = some
                { y0 := pl.destY.toNat, x0 := pl.destX.toNat, h := pl.h,
                  w := pl.w, src := pl.src } := by
              unfold keptWrite
              rw [hpl]
              dsimp only
              rw [if_pos (show Placement.fits g pl from hf)]
            rw [hk]
            dsimp only
            rw [if_pos hf,
              npAssign_of_fits base g.h g.w pl.destY pl.destX pl.h pl.w pl.src
                hny hnx hf.1 hf.2]
            rw [ih hnn' (writeRegion base
              { y0 := pl.destY.toNat, x0 := pl.destX.toNat, h := pl.h,
                w := pl.w, src := pl.src })]
            rfl
          · have hk : keptWrite g cache offs rc = none := by
              unfold keptWrite
              rw [hpl]
              dsimp only
              rw [if_neg (show ¬ Placement.fits g pl from hf)]
            rw [hk]
            dsimp only
            rw [if_neg hf]
            exact ih hnn' base

theorem keptWrite_some_inv (g : Grid) (cache : Cache) (offs : OffMap)
    (rc : Nat × Nat) (wr : RegionWrite)
    (h : keptWrite g cache offs rc = some wr) :
    ∃ pl, cellPlan g cache offs rc = some pl ∧ Placement.fits g pl ∧
      wr = { y0 := pl.destY.toNat, x0 := pl.destX.toNat, h := pl.h, w := pl.w,
             src := pl.src } := by
  unfold keptWrite at h
  cases hpl : cellPlan g cache offs rc with
  | none => rw [hpl] at h; cases h
  | some pl =>
      rw [hpl] at h
      dsimp only at h
      by_cases hf : Placement.fits g pl
      · rw [if_pos hf] at h
        injection h with h
        exact ⟨pl, rfl, hf, h.symm⟩
      · rw [if_neg hf] at h
        cases h

/-- C1 (amended): with every computed destination non-negative, `rebuild`
places each cached cell's bounding-box content at the cell origin plus
that cell's offset whenever `dest + size` fits the bottom/right canvas
bounds (given the kept placements do not overlap this one), every pixel
covered by no kept placement is transparent, and a placement whose
`dest + size` exceeds the bottom or right bound is dropped entirely: the
rebuilt canvas is the one obtained with that cell absent from the cache.
(The code checks only the bottom/right bounds; negative destinations are
not dropped — see the counterexample.) -/
theorem rebuild_places_and_drops (g : Grid) (cache : Cache) (offs : OffMap)
    (hnn : ∀ rc ∈ cellList g, ∀ pl, cellPlan g cache offs rc = some pl →
      0 ≤ pl.destY ∧ 0 ≤ pl.destX) :
    (∃ out, rebuild g cache offs = some out ∧
      (∀ rc ∈ cellList g, ∀ pl, cellPlan g cache offs rc = some pl →
        Placement.fits g pl →
        (∀ rc' ∈ cellList g, rc' ≠ rc → ∀ pl',
          cellPlan g cache offs rc' = some pl' → Placement.fits g pl' →
          ∀ y x, ¬ (inPlace pl' y x ∧ inPlace pl y x)) →
        ∀ i j, i < pl.h → j < pl.w →
          out (pl.destY.toNat + i) (pl.destX.toNat + j) = pl.src i j) ∧
      (∀ y x, (∀ rc ∈ cellList g, ∀ pl, cellPlan g cache offs rc = some pl →
          Placement.fits g pl → ¬ inPlace pl y x) → out y x = clearPix)) ∧
    (∀ rc pl, cellPlan g cache offs rc = some pl → ¬ Placement.fits g pl →
      rebuild g cache offs =
        rebuild g (fun k => if k = rc then none else cache k) offs) := by
  constructor
  · refine ⟨applyWrites (fun _ _ => clearPix)
      ((cellList g).filterMap (keptWrite g cache offs)),
      rebuild_foldl_eq g cache offs (cellList g) hnn _, ?_, ?_⟩
    · intro rc hmem pl hpl hf hdisj i j hi hj
      rcases List.append_of_mem hmem with ⟨L1, L2, hsplit⟩
      have hnotin : rc ∉ L2 := by
        have hnd := cellList_nodup g
        rw [hsplit] at hnd
        exact (List.nodup_cons.mp hnd.of_append_right).1
      have hk : keptWrite g cache offs rc = some
          { y0 := pl.destY.toNat, x0 := pl.destX.toNat, h := pl.h, w := pl.w,
            src := pl.src } := by
        unfold keptWrite
        rw [hpl]
        dsimp only
        rw [if_pos hf]
      rw [hsplit, List.filterMap_append, List.filterMap_cons, hk]
      dsimp only
      have hinp : inWrite
          { y0 := pl.destY.toNat, x0 := pl.destX.toNat, h := pl.h, w := pl.w,
            src := pl.src } (pl.destY.toNat + i) (pl.destX.toNat + j) :=
        ⟨Nat.le_add_right _ _, by dsimp only; omega,
         Nat.le_add_right _ _, by dsimp only; omega⟩
      have h2p : ∀ wr' ∈ List.filterMap (keptWrite g cache offs) L2,
          ¬ inWrite wr' (pl.destY.toNat + i) (pl.destX.toNat + j) := by
        intro wr' hwr' hin'
        rcases List.mem_filterMap.mp hwr' with ⟨rc', hrcmem', hrc'⟩
        rcases keptWrite_some_inv g cache offs rc' wr' hrc' with ⟨pl', hpl', hf', hwr⟩
        have hne : rc' ≠ rc := fun he => hnotin (he ▸ hrcmem')
        have hmem' : rc' ∈ cellList g := by
          rw [hsplit]
          exact List.mem_append_right _ (List.mem_cons_of_mem _ hrcmem')
        refine hdisj rc' hmem' hne pl' hpl' hf'
          (pl.destY.toNat + i) (pl.destX.toNat + j) ⟨?_, ?_⟩
        · rw [hwr] at hin'
          exact hin'
        · exact ⟨Nat.le_add_right _ _, by omega, Nat.le_add_right _ _, by omega⟩
      refine Eq.trans (applyWrites_last_cover _ _ _ _ _ _ hinp h2p) ?_
      dsimp only
      congr 1
      · omega
      · omega
    · intro y x hnone
      apply applyWrites_notin
      intro wr' hwr' hin'
      rcases List.mem_filterMap.mp hwr' with ⟨rc', hrcmem', hrc'⟩
      rcases keptWrite_some_inv g cache offs rc' wr' hrc' with ⟨pl', hpl', hf', hwr⟩
      refine hnone rc' hrcmem' pl' hpl' hf' ?_
      rw [hwr] at hin'
      exact hin'
  · intro rc pl hpl hnf
    unfold rebuild
    refine foldl_ext _ _ _ ?_ _
    intro acc rc' hrc'
    by_cases he : rc' = rc
    · subst he
      cases acc with
      | none => rfl
      | some p =>
          have hplanE : cellPlan g (fun k => if k = rc' then none else cache k)
              offs rc' = none := by
            unfold cellPlan
            dsimp only
            rw [if_pos rfl]
          rw [rebuildStep_plan, rebuildStep_plan, hpl, hplanE]
          dsimp only
          rw [if_neg (show ¬ (pl.destY + pl.h ≤ (g.h : Int) ∧
            pl.destX + pl.w ≤ (g.w : Int)) from hnf)]
    · cases acc with
      | none => rfl
      | some p =>
          unfold rebuildStep
          dsimp only
          rw [if_neg he]

/-- C1 counterexample: the placement of cell (0,0) has destination
x = −2, i.e. it exceeds the canvas on the left, yet it is NOT dropped:
the rebuilt canvas is not the one obtained with the cell absent — the
pixel reappears, relocated, at (0,1) (numpy wraps the negative slice
index −2 to width−2 = 1). -/
theorem rebuild_negative_offset_not_dropped_cex :
    (cellPlan gC1 cacheC1 offsC1 (0, 0)).map Placement.destX = some (-2) ∧
    (rebuild gC1 cacheC1 offsC1).map (fun f => f 0 1) = some ⟨1, 2, 3, 255⟩ ∧
    (rebuild gC1 (fun k => if k = (0, 0) then none else cacheC1 k) offsC1).map
      (fun f => f 0 1) = some clearPix := by
  decide

theorem rebuild_places_and_drops_witness :
    (∀ rc ∈ cellList gC1, ∀ pl, cellPlan gC1 cacheC1 offsW rc = some pl →
      0 ≤ pl.destY ∧ 0 ≤ pl.destX) ∧
    ((∃ out, rebuild gC1 cacheC1 offsW = some out ∧
      (∀ rc ∈ cellList gC1, ∀ pl, cellPlan gC1 cacheC1 offsW rc = some pl →
        Placement.fits gC1 pl →
        (∀ rc' ∈ cellList gC1, rc' ≠ rc → ∀ pl',
          cellPlan gC1 cacheC1 offsW rc' = some pl' → Placement.fits gC1 pl' →
          ∀ y x, ¬ (inPlace pl' y x ∧ inPlace pl y x)) →
        ∀ i j, i < pl.h → j < pl.w →
          out (pl.destY.toNat + i) (pl.destX.toNat + j) = pl.src i j) ∧
      (∀ y x, (∀ rc ∈ cellList gC1, ∀ pl, cellPlan gC1 cacheC1 offsW rc = some pl →
          Placement.fits gC1 pl → ¬ inPlace pl y x) → out y x = clearPix)) ∧
    (∀ rc pl, cellPlan gC1 cacheC1 offsW rc = some pl → ¬ Placement.fits gC1 pl →
      rebuild gC1 cacheC1 offsW =
        rebuild gC1 (fun k => if k = rc then none else cacheC1 k) offsW)) := by
  have hnn : ∀ rc ∈ cellList gC1, ∀ pl, cellPlan gC1 cacheC1 offsW rc = some pl →
      0 ≤ pl.destY ∧ 0 ≤ pl.destX := by
    intro rc hrc pl hpl
    rcases rc with ⟨a, b⟩
    have hab := (mem_cellList gC1 a b).mp hrc
    have hab' : a < 1 ∧ b < 1 := by simpa [gC1] using hab
    have ha : a = 0 := by omega
    have hb : b = 0 := by omega
    subst ha
    subst hb
    have hY : (cellPlan gC1 cacheC1 offsW (0, 0)).map Placement.destY = some 1 := by
      decide
    have hX : (cellPlan gC1 cacheC1 offsW (0, 0)).map Placement.destX = some 1 := by
      decide
    rw [hpl] at hY hX
    simp only [Option.map_some', Option.some.injEq] at hY hX
    omega
  exact ⟨hnn, rebuild_places_and_drops gC1 cacheC1 offsW hnn⟩

/-- C3 counterexample: with cell (0,0) selected and the eraser off,
toggling the eraser on and then off leaves NO cell selected — the prior
selection is not restored. -/
theorem toggle_eraser_loses_selection_cex :
    s0E.selectedCell = some (0, 0) ∧ s0E.eraserMode = false ∧
    (step gE (step gE s0E .toggleEraser) .toggleEraser).eraserMode = false ∧
    (step gE (step gE s0E .toggleEraser) .toggleEraser).selectedCell = none := by
  decide

/-- C3 (amended): entering `EraserActive` clears any selection; toggling
the eraser off returns to the non-eraser mode but with no selection —
the full effect of toggling on and off is exactly clearing the
selection. -/
theorem toggle_eraser_clears_selection (g : Grid) (s : EditorState)
    (h : s.eraserMode = false) :
    (step g s .toggleEraser).eraserMode = true ∧
    (step g s .toggleEraser).selectedCell = none ∧
    step g (step g s .toggleEraser) .toggleEraser = { s with selectedCell := none } := by
  cases s with
  | mk al ca offs us sel em sz mp cec =>
      dsimp only at h
      subst h
      exact ⟨rfl, rfl, rfl⟩

theorem toggle_eraser_clears_selection_witness :
    s0E.eraserMode = false ∧
    ((step gE s0E .toggleEraser).eraserMode = true ∧
     (step gE s0E .toggleEraser).selectedCell = none ∧
     step gE (step gE s0E .toggleEraser) .toggleEraser = { s0E with selectedCell := none }) :=
  ⟨rfl, toggle_eraser_clears_selection gE s0E rfl⟩

/-- C8: undo with an empty stack is a no-op on the whole editor state;
with a non-empty stack it pops the latest snapshot, makes it the canvas,
and re-captures the entire SpriteCache from the restored canvas, leaving
the OffsetMap untouched. -/
theorem undo_noop_or_pop_and_recapture (g : Grid) (s : EditorState) :
    (s.undoStack = [] → step g s .undoKey = s) ∧
    (∀ l snap, s.undoStack = l ++ [snap] →
      step g s .undoKey =
        { s with aligned := snap, undoStack := l, cache := captureCache g snap }) := by
  have hstep : step g s .undoKey =
      (match s.undoStack.getLast? with
        | none => s
        | some snap =>
            { s with aligned := snap, undoStack := s.undoStack.dropLast,
                     cache := captureCache g snap }) := rfl
  constructor
  · intro h
    rw [hstep, h]
    rfl
  · intro l snap h
    rw [hstep, h, List.getLast?_concat, List.dropLast_concat]

theorem undo_noop_or_pop_and_recapture_witness :
    s0E.undoStack = [] ∧ step gE s0E .undoKey = s0E ∧
    s1E.undoStack = [] ++ [alignedE] ∧
    step gE s1E .undoKey =
      { s1E with aligned := alignedE, undoStack := [],
                 cache := captureCache gE alignedE } :=
  ⟨rfl, (undo_noop_or_pop_and_recapture gE s0E).1 rfl, rfl,
   (undo_noop_or_pop_and_recapture gE s1E).2 [] alignedE rfl⟩

theorem eraseAtPosition_fields (g : Grid) (s : EditorState) (mx my : Int)
    (scale radius : Nat) (cell : Option (Nat × Nat)) :
    (eraseAtPosition g s mx my scale radius cell).eraserMode = s.eraserMode ∧
    (eraseAtPosition g s mx my scale radius cell).mousePressed = s.mousePressed ∧
    (eraseAtPosition g s mx my scale radius cell).currentEraseCell = s.currentEraseCell ∧
    (eraseAtPosition g s mx my scale radius cell).undoStack = s.undoStack ∧
    (eraseAtPosition g s mx my scale radius cell).selectedCell = s.selectedCell ∧
    (eraseAtPosition g s mx my scale radius cell).offsets = s.offsets ∧
    (eraseAtPosition g s mx my scale radius cell).aligned.w = s.aligned.w ∧
    (eraseAtPosition g s mx my scale radius cell).aligned.h = s.aligned.h := by
  unfold eraseAtPosition
  dsimp only
  split
  · exact ⟨rfl, rfl, rfl, rfl, rfl, rfl, rfl, rfl⟩
  · cases cell with
    | none => exact ⟨rfl, rfl, rfl, rfl, rfl, rfl, rfl, rfl⟩
    | some rc => exact ⟨rfl, rfl, rfl, rfl, rfl, rfl, rfl, rfl⟩

/-- Pixels outside the locked cell's bounds are never touched by a
cell-constrained erase. -/
theorem eraseAtPosition_outside_cell (g : Grid) (s : EditorState) (mx my : Int)
    (scale radius : Nat) (rc : Nat × Nat) (y x : Nat)
    (hout : ¬ (rc.1 * g.ch ≤ y ∧ y ≤ (rc.1 + 1) * g.ch - 1 ∧
               rc.2 * g.cw ≤ x ∧ x ≤ (rc.2 + 1) * g.cw - 1)) :
    (eraseAtPosition g s mx my scale radius (some rc)).aligned.pix y x
      = s.aligned.pix y x := by
  unfold eraseAtPosition
  dsimp only
  split
  · rfl
  · dsimp only
    unfold erasePix
    rw [if_neg (fun hcon => hout ⟨hcon.2.2.2.1, hcon.2.2.2.2.1,
      hcon.2.2.2.2.2.1, hcon.2.2.2.2.2.2⟩)]

/-- While dragging, every motion event erases only inside the locked
cell: all other pixels keep their values. -/
theorem motions_stay_in_cell (g : Grid) (rc : Nat × Nat)
    (ms : List (Int × Int)) :
    ∀ s1 : EditorState, s1.eraserMode = true → s1.mousePressed = true →
      s1.currentEraseCell = some rc →
      ∀ y x, ¬ (rc.1 * g.ch ≤ y ∧ y ≤ (rc.1 + 1) * g.ch - 1 ∧
                rc.2 * g.cw ≤ x ∧ x ≤ (rc.2 + 1) * g.cw - 1) →
      (runEvents g s1 (ms.map (fun q => Event.mouseMotion q.1 q.2))).aligned.pix y x
        = s1.aligned.pix y x := by
  induction ms with
  | nil => intro s1 _ _ _ y x _; rfl
  | cons m ms ih =>
      intro s1 hem hmp hcec y x hout
      show (runEvents g (step g s1 (.mouseMotion m.1 m.2))
        (ms.map (fun q => Event.mouseMotion q.1 q.2))).aligned.pix y x = _
      have hstep : step g s1 (.mouseMotion m.1 m.2) =
          eraseAtPosition g s1 (m.1 - 20) (m.2 - 50) (editorScale g)
            s1.eraserSize (some rc) := by
        show (if s1.mousePressed ∧ s1.eraserMode then
          match s1.currentEraseCell with
          | none => s1
          | some rc => eraseAtPosition g s1 (m.1 - 20) (m.2 - 50) (editorScale g)
              s1.eraserSize (some rc)
          else s1) = _
        rw [if_pos ⟨by rw [hmp], by rw [hem]⟩, hcec]
      rw [hstep]
      obtain ⟨f1, f2, f3, _, _, _, _, _⟩ := eraseAtPosition_fields g s1
        (m.1 - 20) (m.2 - 50) (editorScale g) s1.eraserSize (some rc)
      rw [ih _ (f1.trans hem) (f2.trans hmp) (f3.trans hcec) y x hout]
      exact eraseAtPosition_outside_cell g s1 _ _ _ _ rc y x hout

/-- A press in eraser mode whose pointer is over grid cell `(gy, gx)`
locks that cell, pushes a snapshot, and erases within the cell only. -/
theorem mouseDown_locks_cell (g : Grid) (s : EditorState) (mx my : Int)
    (gy gx : Nat) (hem : s.eraserMode = true)
    (hgy : mdGy g my = (gy : Int)) (hgx : mdGx g mx = (gx : Int))
    (hinr : gy < g.rows) (hinc : gx < g.cols) :
    step g s (.mouseDown mx my) =
      eraseAtPosition g
        { s with mousePressed := true,
                 undoStack := pushSnap s.undoStack s.aligned,
                 currentEraseCell := some (gy, gx) }
        (mx - 20) (my - 50) (editorScale g) s.eraserSize (some (gy, gx)) := by
  have hcell : mdCell g mx my = some (gy, gx) := by
    unfold mdCell
    rw [if_pos ⟨by rw [hgx]; exact Int.natCast_nonneg gx,
      by rw [hgx]; exact_mod_cast hinc,
      by rw [hgy]; exact Int.natCast_nonneg gy,
      by rw [hgy]; exact_mod_cast hinr⟩]
    rw [hgy, hgx]
    simp only [Int.toNat_natCast]
  show (if s.eraserMode then
        eraseAtPosition g
          { s with mousePressed := true,
                   undoStack := pushSnap s.undoStack s.aligned,
                   currentEraseCell := mdCell g mx my }
          (mx - 20) (my - 50) (editorScale g) s.eraserSize (mdCell g mx my)
      else
        if mdInGrid g mx my
        then { s with mousePressed := true,
                      selectedCell := some ((mdGy g my).toNat, (mdGx g mx).toNat) }
        else { s with mousePressed := true }) = _
  rw [if_pos (by rw [hem]), hcell]

/-- C6: for an eraser stroke whose press point lies inside grid cell
`(gy, gx)`, every pixel outside that locked cell keeps its value through
the press and through every subsequent drag point, for any brush radius
1–20 — even when the circular brush geometrically overlaps a
neighbouring cell. -/
theorem eraser_stroke_locked_to_cell (g : Grid) (s : EditorState)
    (mx my : Int) (motions : List (Int × Int)) (gy gx : Nat)
    (hem : s.eraserMode = true)
    (hsz : 1 ≤ s.eraserSize ∧ s.eraserSize ≤ 20)
    (hgy : mdGy g my = (gy : Int)) (hgx : mdGx g mx = (gx : Int))
    (hinr : gy < g.rows) (hinc : gx < g.cols) :
    ∀ y x, ¬ (gy * g.ch ≤ y ∧ y ≤ (gy + 1) * g.ch - 1 ∧
              gx * g.cw ≤ x ∧ x ≤ (gx + 1) * g.cw - 1) →
      (runEvents g (step g s (.mouseDown mx my))
        (motions.map (fun q => Event.mouseMotion q.1 q.2))).aligned.pix y x
        = s.aligned.pix y x := by
  intro y x hout
  rw [mouseDown_locks_cell g s mx my gy gx hem hgy hgx hinr hinc]
  obtain ⟨f1, f2, f3, _, _, _, _, _⟩ := eraseAtPosition_fields g
    { s with mousePressed := true,
             undoStack := pushSnap s.undoStack s.aligned,
             currentEraseCell := some (gy, gx) }
    (mx - 20) (my - 50) (editorScale g) s.eraserSize (some (gy, gx))
  rw [motions_stay_in_cell g (gy, gx) motions _ (f1.trans hem) (f2.trans rfl)
    (f3.trans rfl) y x hout]
  exact eraseAtPosition_outside_cell g _ _ _ _ _ (gy, gx) y x hout

theorem eraseAtPosition_none_cache (g : Grid) (s : EditorState) (mx my : Int)
    (scale radius : Nat) :
    (eraseAtPosition g s mx my scale radius none).cache = s.cache := by
  unfold eraseAtPosition
  dsimp only
  split
  · rfl
  · rfl

/-- C10: a press in eraser mode whose pointer is NOT over any grid cell
still pushes a full-canvas snapshot, locks no cell, leaves the sprite
cache untouched, and (when the press maps inside the image) erases the
circular brush with no cell constraint at all. -/
theorem eraser_press_outside_grid (g : Grid) (s : EditorState) (mx my : Int)
    (hem : s.eraserMode = true)
    (hout : ¬ mdInGrid g mx my) :
    (step g s (.mouseDown mx my)).undoStack = pushSnap s.undoStack s.aligned ∧
    (step g s (.mouseDown mx my)).currentEraseCell = none ∧
    (step g s (.mouseDown mx my)).cache = s.cache ∧
    (¬ ((mx - 20).fdiv (editorScale g) < 0 ∨ (my - 50).fdiv (editorScale g) < 0 ∨
        (s.aligned.w : Int) ≤ (mx - 20).fdiv (editorScale g) ∨
        (s.aligned.h : Int) ≤ (my - 50).fdiv (editorScale g)) →
      ∀ y x, (step g s (.mouseDown mx my)).aligned.pix y x =
        erasePix s.aligned.pix s.aligned.h s.aligned.w
          ((my - 50).fdiv (editorScale g)) ((mx - 20).fdiv (editorScale g))
          s.eraserSize 0 (s.aligned.h - 1) 0 (s.aligned.w - 1) y x) := by
  have hcell : mdCell g mx my = none := by
    unfold mdCell
    rw [if_neg hout]
  have hstep : step g s (.mouseDown mx my) =
      eraseAtPosition g
        { s with mousePressed := true,
                 undoStack := pushSnap s.undoStack s.aligned,
                 currentEraseCell := none }
        (mx - 20) (my - 50) (editorScale g) s.eraserSize none := by
    show (if s.eraserMode then
          eraseAtPosition g
            { s with mousePressed := true,
                     undoStack := pushSnap s.undoStack s.aligned,
                     currentEraseCell := mdCell g mx my }
            (mx - 20) (my - 50) (editorScale g) s.eraserSize (mdCell g mx my)
        else
          if mdInGrid g mx my
          then { s with mousePressed := true,
                        selectedCell := some ((mdGy g my).toNat, (mdGx g mx).toNat) }
          else { s with mousePressed := true }) = _
    rw [if_pos (by rw [hem]), hcell]
  rw [hstep]
  obtain ⟨_, _, f3, f4, _, _, _, _⟩ := eraseAtPosition_fields g
    { s with mousePressed := true,
             undoStack := pushSnap s.undoStack s.aligned,
             currentEraseCell := none }
    (mx - 20) (my - 50) (editorScale g) s.eraserSize none
  refine ⟨f4, f3, eraseAtPosition_none_cache g _ _ _ _ _, ?_⟩
  intro himg y x
  unfold eraseAtPosition
  dsimp only
  rw [if_neg himg]

theorem eraser_stroke_locked_to_cell_witness :
    (sE2.eraserMode = true ∧ (1 ≤ sE2.eraserSize ∧ sE2.eraserSize ≤ 20) ∧
     mdGy gE2 54 = ((0 : Nat) : Int) ∧ mdGx gE2 28 = ((0 : Nat) : Int) ∧
     (0 : Nat) < gE2.rows ∧ (0 : Nat) < gE2.cols ∧
     ¬ (0 * gE2.ch ≤ 0 ∧ 0 ≤ (0 + 1) * gE2.ch - 1 ∧
        0 * gE2.cw ≤ 4 ∧ 4 ≤ (0 + 1) * gE2.cw - 1)) ∧
    (runEvents gE2 (step gE2 sE2 (.mouseDown 28 54))
        ([((48 : Int), (54 : Int))].map (fun q => Event.mouseMotion q.1 q.2))).aligned.pix 0 4
      = sE2.aligned.pix 0 4 ∧
    (step gE2 sE2 (.mouseDown 28 54)).aligned.pix 1 3 = clearPix ∧
    sE2.aligned.pix 1 3 = ⟨5, 5, 5, 255⟩ := by
  refine ⟨⟨rfl, by decide, by decide, by decide, by decide, by decide, by decide⟩,
    ?_, by decide, rfl⟩
  exact eraser_stroke_locked_to_cell gE2 sE2 28 54 [(48, 54)] 0 0 rfl (by decide)
    (by decide) (by decide) (by decide) (by decide) 0 4 (by decide)

theorem eraser_press_outside_grid_witness :
    (sE3.eraserMode = true ∧ ¬ mdInGrid gE3 52 54) ∧
    (step gE3 sE3 (.mouseDown 52 54)).undoStack = pushSnap sE3.undoStack sE3.aligned ∧
    (step gE3 sE3 (.mouseDown 52 54)).currentEraseCell = none ∧
    (step gE3 sE3 (.mouseDown 52 54)).cache = sE3.cache ∧
    (∀ y x, (step gE3 sE3 (.mouseDown 52 54)).aligned.pix y x =
      erasePix sE3.aligned.pix sE3.aligned.h sE3.aligned.w
        ((54 - 50 : Int).fdiv (editorScale gE3)) ((52 - 20 : Int).fdiv (editorScale gE3))
        sE3.eraserSize 0 (sE3.aligned.h - 1) 0 (sE3.aligned.w - 1) y x) ∧
    (step gE3 sE3 (.mouseDown 52 54)).aligned.pix 1 3 = clearPix ∧
    (step gE3 sE3 (.mouseDown 52 54)).aligned.pix 1 4 = clearPix := by
  obtain ⟨h1, h2, h3, h4⟩ := eraser_press_outside_grid gE3 sE3 52 54 rfl (by decide)
  exact ⟨⟨rfl, by decide⟩, h1, h2, h3, h4 (by decide), by decide, by decide⟩

/-- The mouse-down dispatch, written out. -/
theorem step_mouseDown_eq (g : Grid) (s : EditorState) (mx my : Int) :
    step g s (.mouseDown mx my) =
      (if s.eraserMode then
        eraseAtPosition g
          { s with mousePressed := true,
                   undoStack := pushSnap s.undoStack s.aligned,
                   currentEraseCell := mdCell g mx my }
          (mx - 20) (my - 50) (editorScale g) s.eraserSize (mdCell g mx my)
      else
        if mdInGrid g mx my
        then { s with mousePressed := true,
                      selectedCell := some ((mdGy g my).toNat, (mdGx g mx).toNat) }
        else { s with mousePressed := true }) := rfl

/-- When the stack respects the capacity, a push appends the snapshot and
drops the overflow (if any) from the front. -/
theorem pushSnap_eq_drop (l : List Canvas) (snap : Canvas) (h : l.length ≤ 20) :
    pushSnap l snap = (l ++ [snap]).drop ((l.length + 1) - 20) := by
  unfold pushSnap
  by_cases h21 : (l ++ [snap]).length > 20
  · rw [if_pos h21]
    have h20 : l.length = 20 := by
      rw [List.length_append, List.length_singleton] at h21
      omega
    rw [h20]
    exact (List.drop_one _).symm
  · rw [if_neg h21]
    have h0 : (l.length + 1) - 20 = 0 := by
      rw [List.length_append, List.length_singleton] at h21
      omega
    rw [h0, List.drop_zero]

/-- The length of a pushed stack. -/
theorem pushSnap_length (l : List Canvas) (snap : Canvas) (h : l.length ≤ 20) :
    (pushSnap l snap).length = min (l.length + 1) 20 := by
  rw [pushSnap_eq_drop l snap h, List.length_drop, List.length_append,
    List.length_singleton]
  omega

/-- The last element of a pushed stack is the snapshot just pushed. -/
theorem pushSnap_getLast (l : List Canvas) (snap : Canvas) :
    (pushSnap l snap).getLast? = some snap := by
  unfold pushSnap
  by_cases h21 : (l ++ [snap]).length > 20
  · rw [if_pos h21]
    cases l with
    | nil =>
        rw [List.length_append, List.length_singleton, List.length_nil] at h21
        omega
    | cons a l' =>
        show (l' ++ [snap]).getLast? = some snap
        exact List.getLast?_concat _
  · rw [if_neg h21]
    exact List.getLast?_concat _

/-- Every event of the interactive loop keeps the UndoStack within its
capacity of 20 snapshots. -/
theorem step_stack_le (g : Grid) (s : EditorState) (e : Event)
    (h : s.undoStack.length ≤ 20) : (step g s e).undoStack.length ≤ 20 := by
  cases e with
  | toggleEraser =>
      show (if !s.eraserMode then { s with eraserMode := true, selectedCell := none }
        else { s with eraserMode := false }).undoStack.length ≤ 20
      split
      · exact h
      · exact h
  | undoKey =>
      have hstep : step g s .undoKey =
          (match s.undoStack.getLast? with
            | none => s
            | some snap =>
                { s with aligned := snap, undoStack := s.undoStack.dropLast,
                         cache := captureCache g snap }) := rfl
      rw [hstep]
      cases s.undoStack.getLast? with
      | none => exact h
      | some snap =>
          show s.undoStack.dropLast.length ≤ 20
          rw [List.length_dropLast]
          omega
  | incSize => exact h
  | decSize => exact h
  | mouseUp => exact h
  | mouseDown mx my =>
      rw [step_mouseDown_eq]
      by_cases hem : s.eraserMode = true
      · rw [if_pos hem]
        have f4 := (eraseAtPosition_fields g
          { s with mousePressed := true,
                   undoStack := pushSnap s.undoStack s.aligned,
                   currentEraseCell := mdCell g mx my }
          (mx - 20) (my - 50) (editorScale g) s.eraserSize
          (mdCell g mx my)).2.2.2.1
        rw [f4]
        show (pushSnap s.undoStack s.aligned).length ≤ 20
        rw [pushSnap_length _ _ h]
        omega
      · rw [if_neg hem]
        split
        · exact h
        · exact h
  | mouseMotion mx my =>
      show (if s.mousePressed ∧ s.eraserMode then
            match s.currentEraseCell with
            | none => s
            | some rc =>
                eraseAtPosition g s (mx - 20) (my - 50) (editorScale g)
                  s.eraserSize (some rc)
          else s).undoStack.length ≤ 20
      by_cases hpe : s.mousePressed ∧ s.eraserMode
      · rw [if_pos hpe]
        cases s.currentEraseCell with
        | none => exact h
        | some rc =>
            show (eraseAtPosition g s (mx - 20) (my - 50) (editorScale g)
              s.eraserSize (some rc)).undoStack.length ≤ 20
            have f4 := (eraseAtPosition_fields g s (mx - 20) (my - 50)
              (editorScale g) s.eraserSize (some rc)).2.2.2.1
            rw [f4]
            exact h
      · rw [if_neg hpe]
        exact h

/-- A stroke (press then release) never changes the eraser mode. -/
theorem strokeE_eraserMode (g : Grid) (s : EditorState) (p : Int × Int) :
    (strokeE g s p).eraserMode = s.eraserMode := by
  show (step g s (.mouseDown p.1 p.2)).eraserMode = s.eraserMode
  rw [step_mouseDown_eq]
  by_cases hem : s.eraserMode = true
  · rw [if_pos hem]
    exact (eraseAtPosition_fields g _ _ _ _ _ _).1
  · rw [if_neg hem]
    split
    · rfl
    · rfl

/-- In eraser mode, a stroke pushes the pre-stroke canvas snapshot. -/
theorem strokeE_stack (g : Grid) (s : EditorState) (p : Int × Int)
    (hem : s.eraserMode = true) :
    (strokeE g s p).undoStack = pushSnap s.undoStack s.aligned := by
  show (step g s (.mouseDown p.1 p.2)).undoStack = pushSnap s.undoStack s.aligned
  rw [step_mouseDown_eq, if_pos hem]
  exact (eraseAtPosition_fields g _ _ _ _ _ _).2.2.2.1

/-- A run of strokes never changes the eraser mode. -/
theorem strokeRun_eraserMode (g : Grid) (ps : List (Int × Int)) :
    ∀ s : EditorState, (strokeRun g s ps).eraserMode = s.eraserMode := by
  induction ps with
  | nil => intro s; rfl
  | cons p ps ih =>
      intro s
      show (strokeRun g (strokeE g s p) ps).eraserMode = s.eraserMode
      rw [ih (strokeE g s p), strokeE_eraserMode]

/-- The number of pre-stroke snapshots equals the number of strokes. -/
theorem snapshots_length (g : Grid) (ps : List (Int × Int)) :
    ∀ s : EditorState, (snapshots g s ps).length = ps.length := by
  induction ps with
  | nil => intro s; rfl
  | cons p ps ih =>
      intro s
      show (snapshots g (strokeE g s p) ps).length + 1 = ps.length + 1
      rw [ih (strokeE g s p)]

/-- The stack after a run of eraser strokes: the pre-stroke snapshots are
appended in order and the overflow beyond the capacity of 20 is dropped
from the front, oldest first. -/
theorem strokeRun_stack (g : Grid) (ps : List (Int × Int)) :
    ∀ s : EditorState, s.eraserMode = true → s.undoStack.length ≤ 20 →
      (strokeRun g s ps).undoStack =
        (s.undoStack ++ snapshots g s ps).drop
          ((s.undoStack.length + ps.length) - 20) := by
  induction ps with
  | nil =>
      intro s _ hlen
      have h0 : (s.undoStack.length + ([] : List (Int × Int)).length) - 20 = 0 := by
        rw [List.length_nil]
        omega
      have hsn : snapshots g s [] = [] := rfl
      rw [h0, List.drop_zero, hsn, List.append_nil]
      rfl
  | cons p ps ih =>
      intro s hem hlen
      have hem' : (strokeE g s p).eraserMode = true :=
        (strokeE_eraserMode g s p).trans hem
      have hst : (strokeE g s p).undoStack = pushSnap s.undoStack s.aligned :=
        strokeE_stack g s p hem
      have hlen' : (strokeE g s p).undoStack.length ≤ 20 := by
        rw [hst, pushSnap_length _ _ hlen]
        omega
      have hsn : snapshots g s (p :: ps) =
          s.aligned :: snapshots g (strokeE g s p) ps := rfl
      have hA2 : (s.undoStack ++ [s.aligned]).length = s.undoStack.length + 1 := by
        rw [List.length_append, List.length_singleton]
      have hA : (s.undoStack.length + 1) - 20 ≤ (s.undoStack ++ [s.aligned]).length := by
        rw [hA2]
        omega
      show (strokeRun g (strokeE g s p) ps).undoStack = _
      rw [ih (strokeE g s p) hem' hlen', hst, pushSnap_eq_drop _ _ hlen,
        List.length_drop, hA2, ← List.drop_append_of_le_length hA,
        List.drop_drop, hsn, List.append_assoc, List.singleton_append]
      congr 1
      rw [List.length_cons]
      omega

/-- C7 (amended): the UndoStack is bounded — every event preserves the
capacity invariant of at most 20 snapshots, and in eraser mode every
stroke first pushes the pre-stroke canvas (dropping the oldest entry on
overflow). After 21 sequential eraser strokes from a fresh empty-stack
state the stack holds exactly the 20 MOST RECENT snapshots (the oldest
one, the initial canvas, was dropped), and a single undo restores the
most recent snapshot — the state just before the 21st stroke — not the
20th-most-recent one. -/
theorem undo_capacity_amended (g : Grid) :
    (∀ (s : EditorState) (e : Event), s.undoStack.length ≤ 20 →
      (step g s e).undoStack.length ≤ 20) ∧
    (∀ (s : EditorState) (p : Int × Int), s.eraserMode = true →
      (strokeE g s p).undoStack = pushSnap s.undoStack s.aligned) ∧
    (∀ (s : EditorState) (ps : List (Int × Int)),
      s.eraserMode = true → s.undoStack = [] → ps.length = 21 →
      (strokeRun g s ps).undoStack = (snapshots g s ps).tail ∧
      (snapshots g s ps).length = 21 ∧
      (ps ≠ [] →
        (step g (strokeRun g s ps) .undoKey).aligned
          = (strokeRun g s ps.dropLast).aligned)) := by
  refine ⟨step_stack_le g, strokeE_stack g, ?_⟩
  intro s ps hem hstack0 hlen21
  have hle : s.undoStack.length ≤ 20 := by
    rw [hstack0]
    exact Nat.zero_le 20
  refine ⟨?_, ?_, ?_⟩
  · rw [strokeRun_stack g ps s hem hle, hstack0, hlen21]
    show (snapshots g s ps).drop 1 = (snapshots g s ps).tail
    exact List.drop_one _
  · rw [snapshots_length g ps s]
    exact hlen21
  · intro hne
    have hps : ps.dropLast ++ [ps.getLast hne] = ps :=
      List.dropLast_append_getLast hne
    have hrun : strokeRun g s ps =
        strokeE g (strokeRun g s ps.dropLast) (ps.getLast hne) := by
      show ps.foldl (strokeE g) s = _
      conv_lhs => rw [← hps]
      rw [List.foldl_append]
      rfl
    have hRem : (strokeRun g s ps.dropLast).eraserMode = true :=
      (strokeRun_eraserMode g ps.dropLast s).trans hem
    have hstep : ∀ t : EditorState, step g t .undoKey =
        (match t.undoStack.getLast? with
          | none => t
          | some snap =>
              { t with aligned := snap, undoStack := t.undoStack.dropLast,
                       cache := captureCache g snap }) := fun t => rfl
    rw [hstep (strokeRun g s ps), hrun, strokeE_stack g _ _ hRem, pushSnap_getLast]

/-- C7 counterexample: after 21 eraser strokes from a fresh state the
stack holds 20 snapshots, the 20th-most-recent snapshot (index 1 of the
21 pre-stroke snapshots) still has pixel (0,3) opaque, but a single undo
yields a canvas with pixel (0,3) already erased — undo restores the MOST
RECENT snapshot, not the 20th-most-recent state. -/
theorem undo_restores_most_recent_not_20th_cex :
    sErase.eraserMode = true ∧ sErase.undoStack = [] ∧ ps21.length = 21 ∧
    (strokeRun gE sErase ps21).undoStack.length = 20 ∧
    ((snapshots gE sErase ps21)[1]?).map (fun c => c.pix 0 3)
      = some ⟨5, 5, 5, 255⟩ ∧
    (step gE (strokeRun gE sErase ps21) .undoKey).aligned.pix 0 3 = clearPix ∧
    ((snapshots gE sErase ps21)[1]?).map (fun c => c.pix 0 3) ≠
      some ((step gE (strokeRun gE sErase ps21) .undoKey).aligned.pix 0 3) := by
  exact ⟨rfl, rfl, by decide, by decide, by decide, by decide, by decide⟩

theorem undo_capacity_amended_witness :
    s1E.undoStack.length ≤ 20 ∧
    (step gE s1E .incSize).undoStack.length ≤ 20 ∧
    (sErase.eraserMode = true ∧
     (strokeE gE sErase (20, 50)).undoStack
       = pushSnap sErase.undoStack sErase.aligned) ∧
    (sErase.undoStack = [] ∧ ps21.length = 21) ∧
    ((strokeRun gE sErase ps21).undoStack = (snapshots gE sErase ps21).tail ∧
     (snapshots gE sErase ps21).length = 21 ∧
     (step gE (strokeRun gE sErase ps21) .undoKey).aligned
       = (strokeRun gE sErase ps21.dropLast).aligned) := by
  obtain ⟨h1, h2, h3⟩ := (undo_capacity_amended gE).2.2 sErase ps21 rfl rfl (by decide)
  exact ⟨by decide, (undo_capacity_amended gE).1 s1E .incSize (by decide),
    ⟨rfl, (undo_capacity_amended gE).2.1 sErase (20, 50) rfl⟩,
    ⟨rfl, by decide⟩, h1, h2, h3 (by decide)⟩
